import Mathlib

/-!
Verification development for the `codex_telegram` job-orchestration system
(Python source under `src/codex_telegram/`).  The Python modules are shallowly
embedded as executable Lean definitions: pure functions become Lean functions,
the sqlite-backed repository becomes explicit state passing on a store record,
and filesystem/process effects are modelled by explicit data (the database lock
serializes every repository call, so the sequential state-passing semantics is
the faithful embedding of the store).  Timestamps are modelled as naturals
(`_now_iso()` values are only stored and compared for presence, never parsed
by the code under verification).
-/

namespace CodexTelegram

/-! ## Python string primitives

Character-level helpers mirroring the Python string operations used by the
source (`str.strip`, `str.lower`, substring containment, `str.find`).
ASCII semantics suffice for every string the source manipulates. -/

/-- Python whitespace characters for `str.strip` / `\s` (ASCII range). -/
def isPyWS (c : Char) : Bool :=
  c = ' ' || c = '\t' || c = '\n' || c = '\x0d' || c = '\x0b' || c = '\x0c'

/-- Python word character for the regex `\b` / `\w` classes (ASCII range). -/
def isWordCh (c : Char) : Bool :=
  ('a' ≤ c && c ≤ 'z') || ('A' ≤ c && c ≤ 'Z') || ('0' ≤ c && c ≤ '9') || c = '_'

/-- ASCII lower-casing of one character (Python `str.lower`). -/
def pyLowerCh (c : Char) : Char :=
  if 'A' ≤ c && c ≤ 'Z' then Char.ofNat (c.toNat + 32) else c

/-- `str.strip()` on a character list. -/
def pyStripL (l : List Char) : List Char :=
  ((l.dropWhile isPyWS).reverse.dropWhile isPyWS).reverse

/-- `str.strip()`. -/
def pyStrip (s : String) : String := ⟨pyStripL s.data⟩

/-- `str.lower()`. -/
def pyLower (s : String) : String := ⟨s.data.map pyLowerCh⟩

/-- Python `needle in haystack` substring test, on character lists. -/
def containsSub (pat : List Char) : List Char → Bool
  | [] => pat.isPrefixOf []
  | c :: rest => pat.isPrefixOf (c :: rest) || containsSub pat rest

/-- Python `needle in haystack` substring test on strings. -/
def strContains (haystack needle : String) : Bool :=
  containsSub needle.data haystack.data

/-- Python `haystack.startswith(needle)`. -/
def strStartsWith (haystack needle : String) : Bool :=
  needle.data.isPrefixOf haystack.data

/-- Python `s[:idx]` / `s[idx+len(marker):]` around the first occurrence of
`marker` (`s.find(marker)`): returns `none` when `find` yields `-1`, otherwise
the text before the occurrence and the text after it. -/
def splitFirst (marker : List Char) : List Char → Option (List Char × List Char)
  | [] => if marker.isPrefixOf ([] : List Char) then some ([], []) else none
  | c :: rest =>
    if marker.isPrefixOf (c :: rest) then some ([], (c :: rest).drop marker.length)
    else (splitFirst marker rest).map (fun p => (c :: p.1, p.2))

/-! ## Risk classifier (`policy.py`)

The high/medium regex patterns only use literal characters, `\b`, `\s+`,
groups of literal alternatives and optional literal groups; they are compiled
with `re.IGNORECASE`.  We embed each compiled pattern as a set of alternative
element sequences (`List (List Elem)`); a group alternation `(run|compose|…)`
or an optional group `(-get)?` is expanded into top-level alternatives, which
matches the same language and hence gives the same `pattern.search` result. -/

/-- One element of an embedded regex: a case-insensitive literal character,
`\s+`, or the word-boundary assertion `\b`. -/
inductive Elem where
  | lit (c : Char)
  | spacePlus
  | bound
  deriving DecidableEq, Repr

/-- Case-insensitive character comparison (`re.IGNORECASE`). -/
def eqCI (a b : Char) : Bool := pyLowerCh a = pyLowerCh b

/-- Word-ness of the character on one side of a position (`none` = string edge,
which counts as a non-word character for `\b`). -/
def isWordOpt : Option Char → Bool
  | none => false
  | some c => isWordCh c

/-- The `\b` assertion at a position: word-ness differs between the previous
character and the next one. -/
def boundaryOk (prev : Option Char) (s : List Char) : Bool :=
  isWordOpt prev != isWordOpt s.head?

/-- Consume one or more whitespace characters, then hand over to the
continuation after each consumed prefix (backtracking for `\s+`). -/
def spaceTailK (k : Option Char → List Char → Bool) : List Char → Bool
  | [] => false
  | x :: xs => isPyWS x && (k (some x) xs || spaceTailK k xs)

/-- Match an element sequence at the start of `s` (with `prev` the character
just before `s`, for `\b`); backtracking over `\s+` widths. -/
def matchElems : List Elem → Option Char → List Char → Bool
  | [], _, _ => true
  | .bound :: es', prev, s => boundaryOk prev s && matchElems es' prev s
  | .lit _ :: _, _, [] => false
  | .lit c :: es', _, x :: xs => eqCI c x && matchElems es' (some x) xs
  | .spacePlus :: es', _, s => spaceTailK (matchElems es') s

/-- Try every alternative of a pattern at one position. -/
def matchAlts (alts : List (List Elem)) (prev : Option Char) (s : List Char) : Bool :=
  alts.any (fun a => matchElems a prev s)

/-- `pattern.search`: try to match at every position of the input. -/
def searchFrom (alts : List (List Elem)) (prev : Option Char) (s : List Char) : Bool :=
  match s with
  | [] => matchAlts alts prev []
  | x :: xs => matchAlts alts prev (x :: xs) || searchFrom alts (some x) xs

/-- `pattern.search(text) is not None`. -/
def reSearch (alts : List (List Elem)) (s : List Char) : Bool :=
  searchFrom alts none s

/-- An embedded compiled pattern: the source regex text (used in the decision
reason) and its alternatives. -/
structure Pat where
  pattern : String
  alts : List (List Elem)
  deriving DecidableEq

/-- Literal character run. -/
def lits (s : String) : List Elem := s.data.map Elem.lit

/-- `\brm\s+-rf\b` -/
def patRmRf : Pat :=
  ⟨"\\brm\\s+-rf\\b", [[.bound] ++ lits "rm" ++ [.spacePlus] ++ lits "-rf" ++ [.bound]]⟩

/-- `\bmkfs\b` -/
def patMkfs : Pat := ⟨"\\bmkfs\\b", [[.bound] ++ lits "mkfs" ++ [.bound]]⟩

/-- `\bdd\s+if=` -/
def patDdIf : Pat := ⟨"\\bdd\\s+if=", [[.bound] ++ lits "dd" ++ [.spacePlus] ++ lits "if="]⟩

/-- `\bshutdown\b` -/
def patShutdown : Pat := ⟨"\\bshutdown\\b", [[.bound] ++ lits "shutdown" ++ [.bound]]⟩

/-- `\breboot\b` -/
def patReboot : Pat := ⟨"\\breboot\\b", [[.bound] ++ lits "reboot" ++ [.bound]]⟩

/-- `\buserdel\b` -/
def patUserdel : Pat := ⟨"\\buserdel\\b", [[.bound] ++ lits "userdel" ++ [.bound]]⟩

/-- `\bchown\s+-R\s+/` -/
def patChown : Pat :=
  ⟨"\\bchown\\s+-R\\s+/",
   [[.bound] ++ lits "chown" ++ [.spacePlus] ++ lits "-R" ++ [.spacePlus] ++ lits "/"]⟩

/-- `\bchmod\s+777\s+/` -/
def patChmod : Pat :=
  ⟨"\\bchmod\\s+777\\s+/",
   [[.bound] ++ lits "chmod" ++ [.spacePlus] ++ lits "777" ++ [.spacePlus] ++ lits "/"]⟩

/-- `\b:(){:|:&};:\b` — as a Python regex this is a top-level alternation:
`\b:(){:` (the `()` group matches the empty string, `{` is a literal) or
`:&};:\b`. -/
def patForkBomb : Pat :=
  ⟨"\\b:()\x7b:|:&\x7d;:\\b",
   [[.bound] ++ lits ":\x7b:", lits ":&\x7d;:" ++ [.bound]]⟩

/-- The `_high_patterns` list of `RiskPolicy.__init__`, in source order. -/
def highPatterns : List Pat :=
  [patRmRf, patMkfs, patDdIf, patShutdown, patReboot, patUserdel, patChown,
   patChmod, patForkBomb]

/-- `\bsudo\b` -/
def patSudo : Pat := ⟨"\\bsudo\\b", [[.bound] ++ lits "sudo" ++ [.bound]]⟩

/-- `\brm\b` -/
def patRm : Pat := ⟨"\\brm\\b", [[.bound] ++ lits "rm" ++ [.bound]]⟩

/-- `\bgit\s+push\b` -/
def patGitPush : Pat :=
  ⟨"\\bgit\\s+push\\b",
   [[.bound] ++ lits "git" ++ [.spacePlus] ++ lits "push" ++ [.bound]]⟩

/-- `\bdocker\s+(run|compose|rm|rmi|exec)\b`, group expanded into alternatives. -/
def patDocker : Pat :=
  ⟨"\\bdocker\\s+(run|compose|rm|rmi|exec)\\b",
   [[.bound] ++ lits "docker" ++ [.spacePlus] ++ lits "run" ++ [.bound],
    [.bound] ++ lits "docker" ++ [.spacePlus] ++ lits "compose" ++ [.bound],
    [.bound] ++ lits "docker" ++ [.spacePlus] ++ lits "rm" ++ [.bound],
    [.bound] ++ lits "docker" ++ [.spacePlus] ++ lits "rmi" ++ [.bound],
    [.bound] ++ lits "docker" ++ [.spacePlus] ++ lits "exec" ++ [.bound]]⟩

/-- `\bsystemctl\b` -/
def patSystemctl : Pat := ⟨"\\bsystemctl\\b", [[.bound] ++ lits "systemctl" ++ [.bound]]⟩

/-- `\bapt(-get)?\s+`, optional group expanded into alternatives. -/
def patApt : Pat :=
  ⟨"\\bapt(-get)?\\s+",
   [[.bound] ++ lits "apt" ++ [.spacePlus],
    [.bound] ++ lits "apt-get" ++ [.spacePlus]]⟩

/-- `\byum\s+` -/
def patYum : Pat := ⟨"\\byum\\s+", [[.bound] ++ lits "yum" ++ [.spacePlus]]⟩

/-- `\bpacman\s+` -/
def patPacman : Pat := ⟨"\\bpacman\\s+", [[.bound] ++ lits "pacman" ++ [.spacePlus]]⟩

/-- `\bpip\s+install\b` -/
def patPip : Pat :=
  ⟨"\\bpip\\s+install\\b",
   [[.bound] ++ lits "pip" ++ [.spacePlus] ++ lits "install" ++ [.bound]]⟩

/-- `\bnpm\s+install\b` -/
def patNpm : Pat :=
  ⟨"\\bnpm\\s+install\\b",
   [[.bound] ++ lits "npm" ++ [.spacePlus] ++ lits "install" ++ [.bound]]⟩

/-- `\bcargo\s+install\b` -/
def patCargo : Pat :=
  ⟨"\\bcargo\\s+install\\b",
   [[.bound] ++ lits "cargo" ++ [.spacePlus] ++ lits "install" ++ [.bound]]⟩

/-- `\bkubectl\s+` -/
def patKubectl : Pat := ⟨"\\bkubectl\\s+", [[.bound] ++ lits "kubectl" ++ [.spacePlus]]⟩

/-- The `_medium_patterns` list of `RiskPolicy.__init__`, in source order. -/
def mediumPatterns : List Pat :=
  [patSudo, patRm, patGitPush, patDocker, patSystemctl, patApt, patYum,
   patPacman, patPip, patNpm, patCargo, patKubectl]

/-- `models.RiskLevel`. -/
inductive RiskLevel where
  | low
  | medium
  | high
  deriving DecidableEq, Repr

/-- `policy.RiskDecision`. -/
structure RiskDecision where
  level : RiskLevel
  needsApproval : Bool
  reason : String
  deriving DecidableEq, Repr

/-- `RiskPolicy.classify_prompt`: strip the prompt, return low for an empty
result, otherwise first matching high pattern, else first matching medium
pattern, else low. -/
def classify_prompt (prompt : String) : RiskDecision :=
  let normalized := pyStrip prompt
  if normalized = "" then ⟨.low, false, "empty prompt"⟩
  else
    match highPatterns.find? (fun p => reSearch p.alts normalized.data) with
    | some p => ⟨.high, true, "matches high-risk pattern: " ++ p.pattern⟩
    | none =>
      match mediumPatterns.find? (fun p => reSearch p.alts normalized.data) with
      | some p => ⟨.medium, true, "matches medium-risk pattern: " ++ p.pattern⟩
      | none => ⟨.low, false, "no risky patterns detected"⟩

/-- C4, counterexample to the claim as stated: the prompt `"apt "` matches the
medium-risk pattern `\bapt(-get)?\s+` (the regexes are applied to the raw
text by `pattern.search`) and no high-risk pattern, yet `classify_prompt`
returns `(low, no approval)`, because the source matches the patterns against
the whitespace-stripped prompt and stripping removes the whitespace that
`\s+` at the end of the pattern requires. -/
theorem classify_prompt_counterexample :
    mediumPatterns.any (fun q => reSearch q.alts "apt ".data) = true ∧
    highPatterns.all (fun q => !reSearch q.alts "apt ".data) = true ∧
    classify_prompt "apt " = ⟨.low, false, "no risky patterns detected"⟩ := by
  decide

/-- C4 (amended): `classify_prompt` is a pure function of the prompt string
such that, with all pattern matching performed on the whitespace-stripped
prompt: an empty or whitespace-only prompt yields (low, no approval); a
stripped prompt matching any high-risk pattern (case-insensitively) yields
(high, needs approval) with a reason naming the matched pattern, even when
medium-risk patterns also match; a stripped prompt matching only a
medium-risk pattern yields (medium, needs approval); every other prompt
yields (low, no approval). -/
theorem classify_prompt_spec (p : String) :
    (pyStrip p = "" → classify_prompt p = ⟨.low, false, "empty prompt"⟩) ∧
    (pyStrip p ≠ "" →
      ((∃ q ∈ highPatterns, reSearch q.alts (pyStrip p).data = true) →
        ∃ q ∈ highPatterns, reSearch q.alts (pyStrip p).data = true ∧
          classify_prompt p = ⟨.high, true, "matches high-risk pattern: " ++ q.pattern⟩) ∧
      ((∀ q ∈ highPatterns, reSearch q.alts (pyStrip p).data = false) →
        (∃ q ∈ mediumPatterns, reSearch q.alts (pyStrip p).data = true) →
        ∃ q ∈ mediumPatterns, reSearch q.alts (pyStrip p).data = true ∧
          classify_prompt p = ⟨.medium, true, "matches medium-risk pattern: " ++ q.pattern⟩) ∧
      ((∀ q ∈ highPatterns, reSearch q.alts (pyStrip p).data = false) →
        (∀ q ∈ mediumPatterns, reSearch q.alts (pyStrip p).data = false) →
        classify_prompt p = ⟨.low, false, "no risky patterns detected"⟩)) := by
  constructor
  · intro h
    simp [classify_prompt, h]
  · intro hne
    refine ⟨?_, ?_, ?_⟩
    · rintro ⟨q, hq, hsq⟩
      cases hf : highPatterns.find? (fun r => reSearch r.alts (pyStrip p).data) with
      | none =>
        rw [List.find?_eq_none] at hf
        exact absurd hsq (by simpa using hf q hq)
      | some q' =>
        refine ⟨q', List.mem_of_find?_eq_some hf, by simpa using List.find?_some hf, ?_⟩
        simp [classify_prompt, if_neg hne, hf]
    · intro hhigh hmed
      have hf : highPatterns.find? (fun r => reSearch r.alts (pyStrip p).data) = none := by
        rw [List.find?_eq_none]
        intro q hq
        simp [hhigh q hq]
      rcases hmed with ⟨q, hq, hsq⟩
      cases hg : mediumPatterns.find? (fun r => reSearch r.alts (pyStrip p).data) with
      | none =>
        rw [List.find?_eq_none] at hg
        exact absurd hsq (by simpa using hg q hq)
      | some q' =>
        refine ⟨q', List.mem_of_find?_eq_some hg, by simpa using List.find?_some hg, ?_⟩
        simp [classify_prompt, if_neg hne, hf, hg]
    · intro hhigh hmed
      have hf : highPatterns.find? (fun r => reSearch r.alts (pyStrip p).data) = none := by
        rw [List.find?_eq_none]
        intro q hq
        simp [hhigh q hq]
      have hg : mediumPatterns.find? (fun r => reSearch r.alts (pyStrip p).data) = none := by
        rw [List.find?_eq_none]
        intro q hq
        simp [hmed q hq]
      simp [classify_prompt, if_neg hne, hf, hg]

/-- Witness for `classify_prompt_spec` at the concrete prompt
`"please rm -rf /tmp/x"`. -/
theorem classify_prompt_spec_witness :
    (pyStrip "please rm -rf /tmp/x" ≠ "" ∧
      (∃ q ∈ highPatterns, reSearch q.alts (pyStrip "please rm -rf /tmp/x").data = true)) ∧
    (∃ q ∈ highPatterns, reSearch q.alts (pyStrip "please rm -rf /tmp/x").data = true ∧
      classify_prompt "please rm -rf /tmp/x" =
        ⟨.high, true, "matches high-risk pattern: " ++ q.pattern⟩) :=
  ⟨⟨by decide, by decide⟩,
   ((classify_prompt_spec "please rm -rf /tmp/x").2 (by decide)).1 (by decide)⟩

/-! ## Data model (`models.py`) and job store (`repository.py`)

Every repository method runs under the database lock (`db.Database` wraps each
statement, and `reserve_next_runnable_job` a whole transaction, in an
`RLock`), so the store is embedded as a sequential state-passing machine on a
`SysState` record.  The wall clock `_now_iso()` is modelled by a natural
number supplied by the caller.  Job-event payload dictionaries carry no
behaviour in the code under verification and are elided from the event rows;
artifact rows are modelled separately with the collector. -/

/-- `models.JobStatus`. -/
inductive JobStatus where
  | queued
  | running
  | awaitingApproval
  | succeeded
  | failed
  | canceled
  | rejected
  deriving DecidableEq, Repr

/-- `models.JobMode`. -/
inductive JobMode where
  | ephemeral
  | session
  deriving DecidableEq, Repr

/-- `models.Job` (the `jobs` table row). -/
structure Job where
  id : Nat
  status : JobStatus
  mode : JobMode
  prompt : String
  createdAt : Nat
  updatedAt : Nat
  sessionName : Option String := none
  riskLevel : RiskLevel := .low
  needsApproval : Bool := false
  approvedBy : Option Nat := none
  startedAt : Option Nat := none
  finishedAt : Option Nat := none
  exitCode : Option Int := none
  summaryText : Option String := none
  errorText : Option String := none
  deriving DecidableEq, Repr

/-- `Job.is_terminal`. -/
def Job.isTerminal (j : Job) : Bool :=
  match j.status with
  | .succeeded | .failed | .canceled | .rejected => true
  | _ => false

/-- The store state: the `jobs` table (with its autoincrement counter), the
append-only `job_events` table (rows `(job_id, event_type)`), the messages
handed to the Notifier, and the clock. -/
structure SysState where
  jobs : List Job := []
  nextJobId : Nat := 1
  events : List (Nat × String) := []
  notifications : List String := []
  clock : Nat := 0
  deriving DecidableEq, Repr

/-- The empty freshly-initialised store. -/
def initState : SysState := {}

/-- The job ids present in the store. -/
def idsOf (s : SysState) : List Nat := s.jobs.map Job.id

/-- SQL `UPDATE jobs SET ... WHERE cond`: rewrite every matching row. -/
def sqlUpdate (cond : Job → Bool) (f : Job → Job) (s : SysState) : SysState :=
  { s with jobs := s.jobs.map (fun j => if cond j then f j else j) }

/-- SQL `COALESCE(a, b)`. -/
def coalesce {α : Type} : Option α → Option α → Option α
  | some a, _ => some a
  | none, b => b

/-- A message handed to the Notifier (egress is fire-and-forget). -/
def notify (message : String) (s : SysState) : SysState :=
  { s with notifications := s.notifications ++ [message] }

namespace Repo

/-- `Repository.get_job` — `SELECT * FROM jobs WHERE id=?` (the `KeyError`
raise on a missing id is the `none` case). -/
def getJob (s : SysState) (jid : Nat) : Option Job :=
  s.jobs.find? (fun j => j.id == jid)

/-- `Repository.create_job`. -/
def create_job (now : Nat) (prompt : String) (mode : JobMode) (sessionName : Option String)
    (riskLevel : RiskLevel) (needsApproval : Bool) (status : JobStatus) (s : SysState) :
    SysState × Job :=
  let job : Job :=
    { id := s.nextJobId, status := status, mode := mode, prompt := prompt,
      createdAt := now, updatedAt := now, sessionName := sessionName,
      riskLevel := riskLevel, needsApproval := needsApproval }
  ({ s with jobs := s.jobs ++ [job], nextJobId := s.nextJobId + 1 }, job)

/-- The `WHERE` clause of the reservation query:
`status='queued' AND (needs_approval=0 OR approved_by IS NOT NULL)`. -/
def runnableJob (j : Job) : Bool :=
  j.status == .queued && (!j.needsApproval || j.approvedBy.isSome)

/-- `ORDER BY id ASC LIMIT 1` over the runnable rows. -/
def minRunnable : List Job → Option Job
  | [] => none
  | j :: rest =>
    match minRunnable rest with
    | none => if runnableJob j then some j else none
    | some k => if runnableJob j && j.id ≤ k.id then some j else some k

/-- `Repository.reserve_next_runnable_job`: one serialized transaction that
selects the lowest-id runnable queued job, rewrites it to `running` with
`started_at=COALESCE(started_at, now)`, checks the update's rowcount, and
re-reads the row. -/
def reserve_next_runnable_job (now : Nat) (s : SysState) : Option Job × SysState :=
  match minRunnable s.jobs with
  | none => (none, s)
  | some row =>
    let s' := sqlUpdate (fun j => j.id == row.id && j.status == .queued)
      (fun j => { j with
        status := .running,
        updatedAt := now,
        startedAt := some (j.startedAt.getD now) }) s
    let rowcount := (s.jobs.filter (fun j => j.id == row.id && j.status == .queued)).length
    if rowcount ≠ 1 then (none, s')
    else (getJob s' row.id, s')

/-- `Repository.set_job_status` — unconditional status write with
`COALESCE` fill of the optional fields, `finished_at=now` iff `finished`. -/
def set_job_status (now : Nat) (jid : Nat) (status : JobStatus)
    (summaryText errorText : Option String) (exitCode : Option Int)
    (approvedBy : Option Nat) (finished : Bool) (s : SysState) : SysState :=
  let finishedAt : Option Nat := if finished then some now else none
  sqlUpdate (fun j => j.id == jid)
    (fun j => { j with
      status := status,
      updatedAt := now,
      summaryText := coalesce summaryText j.summaryText,
      errorText := coalesce errorText j.errorText,
      exitCode := coalesce exitCode j.exitCode,
      approvedBy := coalesce approvedBy j.approvedBy,
      finishedAt := coalesce finishedAt j.finishedAt }) s

/-- `Repository.cancel_job`'s `UPDATE`: to `canceled` only from
{queued, running, awaiting_approval}, setting `finished_at`. -/
def cancel_job (now : Nat) (jid : Nat) (s : SysState) : SysState :=
  sqlUpdate (fun j => j.id == jid &&
      (j.status == .queued || j.status == .running || j.status == .awaitingApproval))
    (fun j => { j with status := .canceled, updatedAt := now, finishedAt := some now }) s

/-- `Repository.approve_job`'s `UPDATE`: from `awaiting_approval` to `queued`,
recording `approved_by`. -/
def approve_job (now : Nat) (jid userId : Nat) (s : SysState) : SysState :=
  sqlUpdate (fun j => j.id == jid && j.status == .awaitingApproval)
    (fun j => { j with status := .queued, approvedBy := some userId, updatedAt := now }) s

/-- `Repository.reject_job`'s `UPDATE`: from `awaiting_approval` to
`rejected`, recording `approved_by` and `finished_at`. -/
def reject_job (now : Nat) (jid userId : Nat) (s : SysState) : SysState :=
  sqlUpdate (fun j => j.id == jid && j.status == .awaitingApproval)
    (fun j => { j with
      status := .rejected,
      approvedBy := some userId,
      updatedAt := now,
      finishedAt := some now }) s

/-- `Repository.append_event` (payload elided, see the section comment). -/
def append_event (jid : Nat) (eventType : String) (s : SysState) : SysState :=
  { s with events := s.events ++ [(jid, eventType)] }

end Repo

/-! ## Orchestrator operations (`orchestrator.py`)

The orchestrator methods and the worker body `_run_job` are embedded as state
transformers.  The executor subprocess and the session registry are external
to the store: a worker step takes the session-activity map and the executor
outcome as parameters (`_run_job` only dispatches on them).  The artifact
collection calls inside `_run_job` touch only artifact rows and are modelled
with the collector, not here. -/

/-- Outcome of `await self._executor.execute(ctx)` as observed by `_run_job`:
a normal return (exit code, summary, error text), task cancellation
(`CancelledError`), or any other exception. -/
inductive ExecOutcome where
  | completed (exitCode : Int) (summary : String) (errorText : Option String)
  | cancelledErr
  | raised (message : String)

/-- Python truthiness of an optional string (`if job.session_name:`). -/
def truthy : Option String → Bool
  | none => false
  | some s => !(s == "")

namespace Orch

/-- `Orchestrator.submit_job`: classify, create the job in `queued` or
`awaiting_approval`, append `job_submitted`, and on a gated job append
`approval_required` and send the approval request text. -/
def submit_job (now : Nat) (prompt : String) (mode : JobMode) (sessionName : Option String)
    (s : SysState) : SysState × Job :=
  let decision := classify_prompt prompt
  let initialStatus : JobStatus :=
    if decision.needsApproval then .awaitingApproval else .queued
  let res := Repo.create_job now prompt mode sessionName decision.level
    decision.needsApproval initialStatus s
  let s2 := Repo.append_event res.2.id "job_submitted" res.1
  if decision.needsApproval then
    let s3 := Repo.append_event res.2.id "approval_required" s2
    (notify ("Job " ++ toString res.2.id ++ " is waiting for approval.\nreason=" ++
       decision.reason ++ "\nUse /approve " ++ toString res.2.id ++ " or /reject " ++
       toString res.2.id ++ ".") s3, res.2)
  else (s2, res.2)

/-- `Orchestrator.approve_job`: repository transition, then the
`job_approved` event (skipped when `get_job` raised on a missing id). -/
def approve_job (now : Nat) (jid userId : Nat) (s : SysState) : SysState :=
  let s1 := Repo.approve_job now jid userId s
  if (Repo.getJob s1 jid).isSome then Repo.append_event jid "job_approved" s1 else s1

/-- `Orchestrator.reject_job`: repository transition, `job_rejected` event,
status notification. -/
def reject_job (now : Nat) (jid userId : Nat) (s : SysState) : SysState :=
  let s1 := Repo.reject_job now jid userId s
  if (Repo.getJob s1 jid).isSome then
    notify "Job rejected" (Repo.append_event jid "job_rejected" s1)
  else s1

/-- `Orchestrator.cancel_job`: cancel the worker task if any (a separate
interleaved `runJob` step with a `cancelledErr` outcome), run the guarded
repository update, then unconditionally append `job_canceled` and notify
(skipped only when `get_job` raised on a missing id). -/
def cancel_job (now : Nat) (jid : Nat) (s : SysState) : SysState :=
  let s1 := Repo.cancel_job now jid s
  if (Repo.getJob s1 jid).isSome then
    notify "Job canceled" (Repo.append_event jid "job_canceled" s1)
  else s1

/-- `Orchestrator._run_job` for a reserved job: the inactive-session
pre-check, the `job_started` event, and the dispatch on the executor outcome.
Returns the new state and whether the Executor was invoked. -/
def run_job (now : Nat) (sessionActive : String → Bool) (outcome : ExecOutcome)
    (jid : Nat) (s : SysState) : SysState × Bool :=
  match Repo.getJob s jid with
  | none => (s, false)
  | some job =>
    if job.mode == .session && truthy job.sessionName &&
        !(sessionActive (job.sessionName.getD "")) then
      let s1 := Repo.set_job_status now jid .failed
        (some "Session mode requested but session is inactive")
        (some ("Session '" ++ job.sessionName.getD "" ++ "' is inactive"))
        (some 2) none true s
      let s2 := Repo.append_event jid "job_failed" s1
      (notify "Job failed" s2, false)
    else
      let s1 := Repo.append_event jid "job_started" s
      match outcome with
      | .cancelledErr =>
        let s2 := Repo.set_job_status now jid .canceled
          (some "Job canceled while running") none (some 130) none true s1
        let s3 := Repo.append_event jid "job_canceled_while_running" s2
        (notify "Job canceled" s3, true)
      | .raised msg =>
        let s2 := Repo.set_job_status now jid .failed
          (some "Executor raised an unexpected error") (some msg) (some 1) none true s1
        let s3 := Repo.append_event jid "job_failed" s2
        (notify "Job failed" s3, true)
      | .completed exitCode summary errorText =>
        if exitCode == 0 then
          let s2 := Repo.set_job_status now jid .succeeded (some summary) none
            (some exitCode) none true s1
          let s3 := Repo.append_event jid "job_succeeded" s2
          (notify "artifacts" (notify "Job completed" s3), true)
        else
          let s2 := Repo.set_job_status now jid .failed (some summary) errorText
            (some exitCode) none true s1
          let s3 := Repo.append_event jid "job_failed" s2
          (notify "artifacts" (notify "Job failed" s3), true)

end Orch

/-- One interleaved step of the system: an orchestrator entry point, a
dispatcher reservation, or a worker body running to its end. -/
inductive Op where
  | submit (prompt : String) (mode : JobMode) (sessionName : Option String)
  | approve (jid userId : Nat)
  | reject (jid userId : Nat)
  | cancel (jid : Nat)
  | reserve
  | runJob (jid : Nat) (sessionActive : String → Bool) (outcome : ExecOutcome)

/-- Apply one step, stamping it with the current clock. -/
def applyOp (s : SysState) (op : Op) : SysState :=
  let now := s.clock
  let s' :=
    match op with
    | .submit prompt mode sessionName => (Orch.submit_job now prompt mode sessionName s).1
    | .approve jid userId => Orch.approve_job now jid userId s
    | .reject jid userId => Orch.reject_job now jid userId s
    | .cancel jid => Orch.cancel_job now jid s
    | .reserve => (Repo.reserve_next_runnable_job now s).2
    | .runJob jid sessionActive outcome => (Orch.run_job now sessionActive outcome jid s).1
  { s' with clock := s.clock + 1 }

/-- Run a sequence of steps. -/
def runOps (ops : List Op) (s : SysState) : SysState := ops.foldl applyOp s

example :
    (runOps [.submit "hi" .ephemeral none, .reserve,
             .runJob 1 (fun _ => true) (.completed 0 "ok" none), .cancel 1]
      initState).events =
    [(1, "job_submitted"), (1, "job_started"), (1, "job_succeeded"), (1, "job_canceled")] := by
  decide

/-! ## Store lemmas -/

theorem getJob_mem {s : SysState} {jid : Nat} {j : Job} (h : Repo.getJob s jid = some j) :
    j ∈ s.jobs ∧ j.id = jid := by
  refine ⟨List.mem_of_find?_eq_some h, ?_⟩
  have := List.find?_some h
  simpa using this

theorem job_eq_of_id_eq {l : List Job} (hnd : (l.map Job.id).Nodup) {j j' : Job}
    (hj : j ∈ l) (hj' : j' ∈ l) (hid : j.id = j'.id) : j = j' :=
  List.inj_on_of_nodup_map hnd hj hj' hid

theorem find?_id_eq_some {l : List Job} (hnd : (l.map Job.id).Nodup) {j : Job} {jid : Nat}
    (hj : j ∈ l) (hid : j.id = jid) : l.find? (fun x => x.id == jid) = some j := by
  induction l with
  | nil => cases hj
  | cons a t ih =>
    by_cases ha : a.id = jid
    · have haj : a = j := by
        rcases List.mem_cons.1 hj with h | h
        · exact h.symm
        · exact job_eq_of_id_eq hnd (List.mem_cons_self a t) (List.mem_cons_of_mem a h)
            (by rw [ha, hid])
      subst haj
      simp [List.find?, ha]
    · have hjt : j ∈ t := by
        rcases List.mem_cons.1 hj with h | h
        · exact absurd (h ▸ hid) ha
        · exact h
      have hndt : (t.map Job.id).Nodup := by
        simpa using (List.nodup_cons.1 (by simpa using hnd)).2
      have hb : (a.id == jid) = false := by simp [ha]
      simpa [List.find?, hb] using ih hndt hjt

theorem getJob_eq_some_of_mem {s : SysState} {jid : Nat} {j : Job}
    (hnd : (s.jobs.map Job.id).Nodup) (hj : j ∈ s.jobs) (hid : j.id = jid) :
    Repo.getJob s jid = some j :=
  find?_id_eq_some hnd hj hid

theorem idsOf_sqlUpdate {q : Job → Bool} {f : Job → Job} (s : SysState)
    (hidf : ∀ x, (f x).id = x.id) : idsOf (sqlUpdate q f s) = idsOf s := by
  simp only [idsOf, sqlUpdate, List.map_map]
  refine List.map_congr_left (fun j _ => ?_)
  by_cases h : q j <;> simp [h, hidf]

theorem getJob_sqlUpdate {q : Job → Bool} {f : Job → Job} {s : SysState} {jid : Nat} {j : Job}
    (hidf : ∀ x, (f x).id = x.id) (hnd : (s.jobs.map Job.id).Nodup)
    (hget : Repo.getJob s jid = some j) :
    Repo.getJob (sqlUpdate q f s) jid = some (if q j then f j else j) := by
  obtain ⟨hj, hid⟩ := getJob_mem hget
  have hmem : (if q j then f j else j) ∈ (sqlUpdate q f s).jobs := by
    simp only [sqlUpdate]
    exact List.mem_map_of_mem _ hj
  have hid' : (if q j then f j else j).id = jid := by
    by_cases h : q j <;> simp [h, hidf, hid]
  have hnd' : ((sqlUpdate q f s).jobs.map Job.id).Nodup := by
    have h2 := idsOf_sqlUpdate (q := q) s hidf
    simp only [idsOf] at h2
    rw [h2]
    exact hnd
  exact getJob_eq_some_of_mem hnd' hmem hid'

theorem mem_sqlUpdate_jobs {q : Job → Bool} {f : Job → Job} {s : SysState} {j' : Job}
    (h : j' ∈ (sqlUpdate q f s).jobs) :
    ∃ j ∈ s.jobs, j' = if q j then f j else j := by
  simp only [sqlUpdate, List.mem_map] at h
  obtain ⟨j, hj, hje⟩ := h
  exact ⟨j, hj, hje.symm⟩

/-- `Repository.cancel_job` on a terminal job writes nothing: no row matches
the guarded `UPDATE`. -/
theorem cancel_job_terminal_noop (now jid : Nat) {s : SysState} {j : Job}
    (hnd : (s.jobs.map Job.id).Nodup) (hget : Repo.getJob s jid = some j)
    (hterm : j.isTerminal = true) : Repo.cancel_job now jid s = s := by
  obtain ⟨hj, hid⟩ := getJob_mem hget
  have hmap : s.jobs.map (fun x => if x.id == jid &&
      (x.status == JobStatus.queued || x.status == JobStatus.running ||
        x.status == JobStatus.awaitingApproval) then
      { x with status := .canceled, updatedAt := now, finishedAt := some now } else x) = s.jobs := by
    have : ∀ x ∈ s.jobs, (if x.id == jid &&
        (x.status == JobStatus.queued || x.status == JobStatus.running ||
          x.status == JobStatus.awaitingApproval) then
        { x with status := JobStatus.canceled, updatedAt := now, finishedAt := some now } else x) = x := by
      intro x hx
      by_cases hxi : x.id = jid
      · have hxj : x = j := job_eq_of_id_eq hnd hx hj (by rw [hxi, hid])
        subst hxj
        unfold Job.isTerminal at hterm
        rcases hst : x.status <;> simp [hst] at hterm <;> simp [hst]
      · simp [hxi]
    rw [List.map_congr_left this]
    simp
  simp only [Repo.cancel_job, sqlUpdate, hmap]

/-- Re-reading a row after `Repository.set_job_status`. -/
theorem getJob_set_job_status {now jid : Nat} {status : JobStatus}
    {summary err : Option String} {ec : Option Int} {ab : Option Nat} {fin : Bool}
    {s : SysState} {j : Job} (hnd : (s.jobs.map Job.id).Nodup)
    (hget : Repo.getJob s jid = some j) :
    Repo.getJob (Repo.set_job_status now jid status summary err ec ab fin s) jid =
      some { j with
        status := status,
        updatedAt := now,
        summaryText := coalesce summary j.summaryText,
        errorText := coalesce err j.errorText,
        exitCode := coalesce ec j.exitCode,
        approvedBy := coalesce ab j.approvedBy,
        finishedAt := coalesce (if fin then some now else none) j.finishedAt } := by
  have hid : j.id = jid := (getJob_mem hget).2
  have hc : (j.id == jid) = true := by simp [hid]
  simp only [Repo.set_job_status]
  refine (getJob_sqlUpdate ?_ hnd hget).trans ?_
  · intro x
    rfl
  · rw [if_pos hc]

/-! ## C3 and C9 -/

/-- C3: for every job id present in the store, `cancel_job` moves a
queued/running/awaiting_approval job to `canceled` with `finished_at` set,
and is a strict no-op on a job that is already terminal. -/
theorem cancel_job_transition_spec (now jid : Nat) (s : SysState) (j : Job)
    (hnd : (s.jobs.map Job.id).Nodup) (hget : Repo.getJob s jid = some j) :
    ((j.status = .queued ∨ j.status = .running ∨ j.status = .awaitingApproval) →
      Repo.getJob (Repo.cancel_job now jid s) jid =
        some { j with status := .canceled, updatedAt := now, finishedAt := some now }) ∧
    (j.isTerminal = true → Repo.cancel_job now jid s = s) := by
  constructor
  · intro hst
    have hid : j.id = jid := (getJob_mem hget).2
    have hcond : (j.id == jid &&
        (j.status == JobStatus.queued || j.status == JobStatus.running ||
          j.status == JobStatus.awaitingApproval)) = true := by
      rcases hst with h | h | h <;> simp [hid, h]
    have hup := getJob_sqlUpdate (q := fun x => x.id == jid &&
        (x.status == JobStatus.queued || x.status == JobStatus.running ||
          x.status == JobStatus.awaitingApproval))
      (f := fun x => { x with status := .canceled, updatedAt := now, finishedAt := some now })
      (fun _ => rfl) hnd hget
    simp only [Repo.cancel_job]
    rw [hup, if_pos hcond]
  · intro hterm
    exact cancel_job_terminal_noop now jid hnd hget hterm

/-- A running job used by concrete witnesses. -/
def jobRunningW : Job :=
  { id := 1, status := .running, mode := .ephemeral, prompt := "a",
    createdAt := 0, updatedAt := 1, startedAt := some 1 }

/-- An already-canceled job used by concrete witnesses. -/
def jobCanceledW : Job :=
  { id := 2, status := .canceled, mode := .ephemeral, prompt := "b",
    createdAt := 0, updatedAt := 1, finishedAt := some 1 }

/-- A concrete store with one running and one canceled job. -/
def stCancelW : SysState :=
  { jobs := [jobRunningW, jobCanceledW], nextJobId := 3, events := [],
    notifications := [], clock := 2 }

/-- Witness for `cancel_job_transition_spec` at the concrete store
`stCancelW` and its running job. -/
theorem cancel_job_transition_spec_witness :
    ((stCancelW.jobs.map Job.id).Nodup ∧ Repo.getJob stCancelW 1 = some jobRunningW ∧
      jobRunningW.status = .running) ∧
    Repo.getJob (Repo.cancel_job 7 1 stCancelW) 1 =
      some { jobRunningW with status := .canceled, updatedAt := 7, finishedAt := some 7 } :=
  ⟨⟨by decide, by decide, by decide⟩,
   (cancel_job_transition_spec 7 1 stCancelW jobRunningW (by decide) (by decide)).1
     (Or.inr (Or.inl (by decide)))⟩

/-- C9: a reserved `mode=session` job whose named target session is inactive
is failed with exit code 2 and error text `Session '<name>' is inactive`, a
`job_failed` event is appended, a status notification is sent, and the
Executor is never invoked. -/
theorem run_job_inactive_session (now : Nat) (act : String → Bool) (outcome : ExecOutcome)
    (jid : Nat) (s : SysState) (j : Job) (n : String)
    (hnd : (s.jobs.map Job.id).Nodup) (hget : Repo.getJob s jid = some j)
    (hmode : j.mode = .session) (hname : j.sessionName = some n) (hn : n ≠ "")
    (hact : act n = false) :
    (Orch.run_job now act outcome jid s).2 = false ∧
    Repo.getJob (Orch.run_job now act outcome jid s).1 jid =
      some { j with
        status := .failed,
        updatedAt := now,
        summaryText := some "Session mode requested but session is inactive",
        errorText := some ("Session '" ++ n ++ "' is inactive"),
        exitCode := some 2,
        finishedAt := some now } ∧
    (Orch.run_job now act outcome jid s).1.events = s.events ++ [(jid, "job_failed")] ∧
    (Orch.run_job now act outcome jid s).1.notifications =
      s.notifications ++ ["Job failed"] := by
  have hguard : (j.mode == JobMode.session && truthy j.sessionName &&
      !(act (j.sessionName.getD ""))) = true := by
    simp [hmode, hname, truthy, hn, hact]
  have hrun : Orch.run_job now act outcome jid s =
      (notify "Job failed" (Repo.append_event jid "job_failed"
        (Repo.set_job_status now jid .failed
          (some "Session mode requested but session is inactive")
          (some ("Session '" ++ j.sessionName.getD "" ++ "' is inactive"))
          (some 2) none true s)), false) := by
    simp only [Orch.run_job, hget, hguard, if_true]
  have hgd : j.sessionName.getD "" = n := by rw [hname]; rfl
  refine ⟨by rw [hrun], ?_,
    by rw [hrun]; simp [notify, Repo.append_event, Repo.set_job_status, sqlUpdate],
    by rw [hrun]; simp [notify, Repo.append_event, Repo.set_job_status, sqlUpdate]⟩
  rw [hrun]
  show Repo.getJob (Repo.set_job_status now jid .failed
      (some "Session mode requested but session is inactive")
      (some ("Session '" ++ j.sessionName.getD "" ++ "' is inactive"))
      (some 2) none true s) jid = _
  rw [getJob_set_job_status hnd hget]
  simp [coalesce, hgd]

/-- A session-mode job targeting the session `demo`, used by witnesses. -/
def jobSessionW : Job :=
  { id := 1, status := .running, mode := .session, prompt := "hello",
    createdAt := 0, updatedAt := 1, sessionName := some "demo", startedAt := some 1 }

/-- A concrete store holding `jobSessionW`. -/
def stSessionW : SysState :=
  { jobs := [jobSessionW], nextJobId := 2, events := [(1, "job_submitted")],
    notifications := [], clock := 2 }

/-- Witness for `run_job_inactive_session`: the concrete session job against
a registry in which no session is active. -/
theorem run_job_inactive_session_witness :
    ((stSessionW.jobs.map Job.id).Nodup ∧ Repo.getJob stSessionW 1 = some jobSessionW ∧
      jobSessionW.mode = .session ∧ jobSessionW.sessionName = some "demo" ∧
      ("demo" : String) ≠ "" ∧ (fun (_ : String) => false) "demo" = false) ∧
    ((Orch.run_job 5 (fun _ => false) (.completed 0 "ok" none) 1 stSessionW).2 = false ∧
      Repo.getJob (Orch.run_job 5 (fun _ => false) (.completed 0 "ok" none) 1 stSessionW).1 1 =
        some { jobSessionW with
          status := .failed,
          updatedAt := 5,
          summaryText := some "Session mode requested but session is inactive",
          errorText := some ("Session '" ++ "demo" ++ "' is inactive"),
          exitCode := some 2,
          finishedAt := some 5 } ∧
      (Orch.run_job 5 (fun _ => false) (.completed 0 "ok" none) 1 stSessionW).1.events =
        stSessionW.events ++ [(1, "job_failed")] ∧
      (Orch.run_job 5 (fun _ => false) (.completed 0 "ok" none) 1 stSessionW).1.notifications =
        stSessionW.notifications ++ ["Job failed"]) :=
  ⟨⟨by decide, by decide, by decide, by decide, by decide, rfl⟩,
   run_job_inactive_session 5 (fun _ => false) (.completed 0 "ok" none) 1 stSessionW
     jobSessionW "demo" (by decide) (by decide) (by decide) (by decide) (by decide) rfl⟩

/-! ## C2: reservation -/

theorem minRunnable_eq_none_imp {l : List Job} (h : Repo.minRunnable l = none) :
    ∀ j ∈ l, Repo.runnableJob j = false := by
  induction l with
  | nil => intro j hj; cases hj
  | cons a t ih =>
    intro j hj
    simp only [Repo.minRunnable] at h
    cases ht : Repo.minRunnable t with
    | none =>
      simp only [ht] at h
      by_cases ha : Repo.runnableJob a
      · rw [if_pos ha] at h; cases h
      · rcases List.mem_cons.1 hj with rfl | hjt
        · simpa using ha
        · exact ih (by rw [ht]) j hjt
    | some k =>
      simp only [ht] at h
      by_cases hc : Repo.runnableJob a && a.id ≤ k.id
      · rw [if_pos hc] at h; cases h
      · rw [if_neg hc] at h; cases h

theorem minRunnable_some_char {l : List Job} {j : Job} (h : Repo.minRunnable l = some j) :
    j ∈ l ∧ Repo.runnableJob j = true ∧
      ∀ k ∈ l, Repo.runnableJob k = true → j.id ≤ k.id := by
  induction l generalizing j with
  | nil => simp [Repo.minRunnable] at h
  | cons a t ih =>
    simp only [Repo.minRunnable] at h
    cases ht : Repo.minRunnable t with
    | none =>
      simp only [ht] at h
      by_cases ha : Repo.runnableJob a
      · rw [if_pos ha] at h
        cases h
        refine ⟨List.mem_cons_self a t, ha, ?_⟩
        intro k hk hrk
        rcases List.mem_cons.1 hk with rfl | hkt
        · exact Nat.le_refl _
        · exact absurd (minRunnable_eq_none_imp ht k hkt) (by simp [hrk])
      · rw [if_neg ha] at h; cases h
    | some k₀ =>
      simp only [ht] at h
      obtain ⟨hk₀, hrk₀, hmin₀⟩ := ih ht
      by_cases hc : Repo.runnableJob a && a.id ≤ k₀.id
      · rw [if_pos hc] at h
        cases h
        have hca : Repo.runnableJob a = true ∧ a.id ≤ k₀.id := by simpa using hc
        refine ⟨List.mem_cons_self a t, hca.1, ?_⟩
        intro k hk hrk
        rcases List.mem_cons.1 hk with rfl | hkt
        · exact Nat.le_refl _
        · exact Nat.le_trans hca.2 (hmin₀ k hkt hrk)
      · rw [if_neg hc] at h
        cases h
        refine ⟨List.mem_cons_of_mem a hk₀, hrk₀, ?_⟩
        intro k hk hrk
        rcases List.mem_cons.1 hk with rfl | hkt
        · rcases Nat.le_total j.id k.id with hle | hle
          · exact hle
          · exact absurd (by simp [hrk, hle]) hc
        · exact hmin₀ k hkt hrk

theorem filter_reserve_eq {l : List Job} (hnd : (l.map Job.id).Nodup) {row : Job}
    (hrow : row ∈ l) (hq : row.status = .queued) :
    l.filter (fun j => j.id == row.id && j.status == JobStatus.queued) = [row] := by
  induction l with
  | nil => cases hrow
  | cons a t ih =>
    have hnd' : (a.id :: t.map Job.id).Nodup := by simpa only [List.map_cons] using hnd
    have hnda : a.id ∉ t.map Job.id := (List.nodup_cons.1 hnd').1
    have hndt : (t.map Job.id).Nodup := (List.nodup_cons.1 hnd').2
    by_cases hai : a.id = row.id
    · have har : a = row := by
        rcases List.mem_cons.1 hrow with h | h
        · exact h.symm
        · exact job_eq_of_id_eq hnd (List.mem_cons_self a t) (List.mem_cons_of_mem a h) hai
      subst har
      have hfa : (a.id == a.id && a.status == JobStatus.queued) = true := by simp [hq]
      have hft : t.filter (fun j => j.id == a.id && j.status == JobStatus.queued) = [] := by
        rw [List.filter_eq_nil_iff]
        intro x hx
        have hxa : x.id ≠ a.id := by
          intro he
          exact hnda (he ▸ List.mem_map_of_mem Job.id hx)
        simp [hxa]
      simp [List.filter_cons, hfa, hft, hq]
    · have hfa : (a.id == row.id && a.status == JobStatus.queued) = false := by simp [hai]
      have hrt : row ∈ t := by
        rcases List.mem_cons.1 hrow with h | h
        · exact absurd (h ▸ rfl : a.id = row.id) (h ▸ hai)
        · exact h
      rw [List.filter_cons]
      simp only [hfa]
      exact ih hndt hrt

/-- Characterisation of a successful reservation: with unique ids, a
`some`-returning `minRunnable` drives the transaction to its normal end. -/
theorem reserve_some_char {now : Nat} {s : SysState} (hnd : (s.jobs.map Job.id).Nodup)
    {row : Job} (hm : Repo.minRunnable s.jobs = some row) :
    Repo.reserve_next_runnable_job now s =
      (some { row with
         status := .running,
         updatedAt := now,
         startedAt := some (row.startedAt.getD now) },
       sqlUpdate (fun x => x.id == row.id && x.status == JobStatus.queued)
         (fun x => { x with
           status := .running,
           updatedAt := now,
           startedAt := some (x.startedAt.getD now) }) s) := by
  obtain ⟨hmem, hrun, _⟩ := minRunnable_some_char hm
  have hq : row.status = .queued := by
    have := hrun
    simp [Repo.runnableJob] at this
    exact this.1
  have hflt := filter_reserve_eq hnd hmem hq
  have hget0 : Repo.getJob s row.id = some row := getJob_eq_some_of_mem hnd hmem rfl
  have hcond : (row.id == row.id && row.status == JobStatus.queued) = true := by simp [hq]
  simp only [Repo.reserve_next_runnable_job, hm, hflt]
  rw [if_neg (by simp)]
  refine Prod.ext ?_ rfl
  show Repo.getJob (sqlUpdate _ _ s) row.id = _
  rw [getJob_sqlUpdate (f := fun x => { x with
        status := JobStatus.running,
        updatedAt := now,
        startedAt := some (x.startedAt.getD now) }) (fun _ => rfl) hnd hget0]
  rw [if_pos hcond]

/-- A guarded row update that never writes `running` cannot create a
`running` job. -/
theorem running_origin_sqlUpdate {cond : Job → Bool} {f : Job → Job} {s : SysState}
    (hnr : ∀ x, (f x).status ≠ .running) :
    ∀ j' ∈ (sqlUpdate cond f s).jobs, j'.status = .running →
      ∃ j ∈ s.jobs, j.id = j'.id ∧ j.status = .running := by
  intro j' hmem hrun
  obtain ⟨j, hj, hje⟩ := mem_sqlUpdate_jobs hmem
  by_cases hc : cond j
  · rw [if_pos hc] at hje
    exact absurd (hje ▸ hrun) (hnr j)
  · rw [if_neg hc] at hje
    subst hje
    exact ⟨j', hj, rfl, hrun⟩

/-- C2: `reserve_next_runnable_job` selects the lowest-id queued job whose
gate is satisfied, rewrites exactly that row to `running` preserving an
already-set `started_at`, and returns it; with no runnable job it returns
`none` and leaves the store untouched; two successive reservations never
return the same job id; and no other orchestrator operation (submit,
approve, reject, cancel, or the worker body) makes any job `running`. -/
theorem reserve_next_runnable_spec :
    (∀ (now : Nat) (s : SysState), (s.jobs.map Job.id).Nodup →
      ((Repo.reserve_next_runnable_job now s).1 = none →
        (Repo.reserve_next_runnable_job now s).2 = s ∧
          ∀ j ∈ s.jobs, Repo.runnableJob j = false) ∧
      (∀ jr, (Repo.reserve_next_runnable_job now s).1 = some jr →
        ∃ j0 ∈ s.jobs, Repo.runnableJob j0 = true ∧
          (∀ k ∈ s.jobs, Repo.runnableJob k = true → j0.id ≤ k.id) ∧
          jr = { j0 with
            status := .running,
            updatedAt := now,
            startedAt := some (j0.startedAt.getD now) } ∧
          (Repo.reserve_next_runnable_job now s).2 =
            sqlUpdate (fun x => x.id == j0.id && x.status == JobStatus.queued)
              (fun x => { x with
                status := .running,
                updatedAt := now,
                startedAt := some (x.startedAt.getD now) }) s) ∧
      (∀ (now' : Nat) (jr jr2 : Job),
        (Repo.reserve_next_runnable_job now s).1 = some jr →
        (Repo.reserve_next_runnable_job now'
            (Repo.reserve_next_runnable_job now s).2).1 = some jr2 →
        jr2.id ≠ jr.id)) ∧
    (∀ (now : Nat) (p : String) (m : JobMode) (sn : Option String) (s : SysState),
      ∀ j' ∈ (Orch.submit_job now p m sn s).1.jobs, j'.status = .running →
        ∃ j ∈ s.jobs, j.id = j'.id ∧ j.status = .running) ∧
    (∀ (now jid u : Nat) (s : SysState),
      ∀ j' ∈ (Orch.approve_job now jid u s).jobs, j'.status = .running →
        ∃ j ∈ s.jobs, j.id = j'.id ∧ j.status = .running) ∧
    (∀ (now jid u : Nat) (s : SysState),
      ∀ j' ∈ (Orch.reject_job now jid u s).jobs, j'.status = .running →
        ∃ j ∈ s.jobs, j.id = j'.id ∧ j.status = .running) ∧
    (∀ (now jid : Nat) (s : SysState),
      ∀ j' ∈ (Orch.cancel_job now jid s).jobs, j'.status = .running →
        ∃ j ∈ s.jobs, j.id = j'.id ∧ j.status = .running) ∧
    (∀ (now : Nat) (act : String → Bool) (outcome : ExecOutcome) (jid : Nat) (s : SysState),
      ∀ j' ∈ (Orch.run_job now act outcome jid s).1.jobs, j'.status = .running →
        ∃ j ∈ s.jobs, j.id = j'.id ∧ j.status = .running) := by
  refine ⟨?_, ?_, ?_, ?_, ?_, ?_⟩
  · intro now s hnd
    refine ⟨?_, ?_, ?_⟩
    · intro hres
      cases hm : Repo.minRunnable s.jobs with
      | none =>
        constructor
        · simp [Repo.reserve_next_runnable_job, hm]
        · exact minRunnable_eq_none_imp hm
      | some row =>
        rw [reserve_some_char hnd hm] at hres
        cases hres
    · intro jr hres
      cases hm : Repo.minRunnable s.jobs with
      | none => simp [Repo.reserve_next_runnable_job, hm] at hres
      | some row =>
        rw [reserve_some_char hnd hm] at hres
        obtain ⟨hmem, hrun, hmin⟩ := minRunnable_some_char hm
        cases hres
        exact ⟨row, hmem, hrun, hmin, rfl, by rw [reserve_some_char hnd hm]⟩
    · intro now' jr jr2 h1 h2
      cases hm : Repo.minRunnable s.jobs with
      | none => simp [Repo.reserve_next_runnable_job, hm] at h1
      | some row =>
        rw [reserve_some_char hnd hm] at h1
        cases h1
        rw [reserve_some_char hnd hm] at h2
        set s₂ := sqlUpdate (fun x => x.id == row.id && x.status == JobStatus.queued)
          (fun x => { x with
            status := JobStatus.running,
            updatedAt := now,
            startedAt := some (x.startedAt.getD now) }) s with hs₂
        have hnd₂ : (s₂.jobs.map Job.id).Nodup := by
          have h2' := idsOf_sqlUpdate
            (q := fun x => x.id == row.id && x.status == JobStatus.queued)
            (f := fun x => { x with
              status := JobStatus.running,
              updatedAt := now,
              startedAt := some (x.startedAt.getD now) }) s (fun _ => rfl)
          simp only [idsOf] at h2'
          rw [hs₂, h2']
          exact hnd
        cases hm₂ : Repo.minRunnable s₂.jobs with
        | none => rw [Repo.reserve_next_runnable_job, hm₂] at h2; cases h2
        | some row₂ =>
          rw [reserve_some_char hnd₂ hm₂] at h2
          cases h2
          obtain ⟨hmem₂, hrun₂, _⟩ := minRunnable_some_char hm₂
          obtain ⟨hmem₀, hrun₀, _⟩ := minRunnable_some_char hm
          intro heq
          have hid₂ : row₂.id = row.id := heq
          obtain ⟨x, hx, hxe⟩ := mem_sqlUpdate_jobs (s := s)
            (q := fun y => y.id == row.id && y.status == JobStatus.queued)
            (f := fun y => { y with
              status := JobStatus.running,
              updatedAt := now,
              startedAt := some (y.startedAt.getD now) }) hmem₂
          have hxid : x.id = row.id := by
            by_cases hc : (x.id == row.id && x.status == JobStatus.queued) = true
            · rw [if_pos hc] at hxe
              have hxx : row₂.id = x.id := by rw [hxe]
              rw [← hxx]
              exact hid₂
            · rw [if_neg hc] at hxe
              exact hxe ▸ hid₂
          have hxeq : x = row := job_eq_of_id_eq hnd hx hmem₀ hxid
          have hq : row.status = .queued := by
            simp [Repo.runnableJob] at hrun₀
            exact hrun₀.1
          have hc : (x.id == row.id && x.status == JobStatus.queued) = true := by
            simp [hxid, hxeq, hq]
          rw [if_pos hc] at hxe
          have hr₂ : row₂.status = JobStatus.running := by rw [hxe]
          simp [Repo.runnableJob, hr₂] at hrun₂
  · intro now p m sn s j' hmem hrun
    have hjobs : (Orch.submit_job now p m sn s).1.jobs = s.jobs ++
        [{ id := s.nextJobId,
           status := if (classify_prompt p).needsApproval then JobStatus.awaitingApproval
             else JobStatus.queued,
           mode := m, prompt := p, createdAt := now, updatedAt := now,
           sessionName := sn, riskLevel := (classify_prompt p).level,
           needsApproval := (classify_prompt p).needsApproval }] := by
      simp only [Orch.submit_job, Repo.create_job, Repo.append_event, notify]
      split <;> rfl
    rw [hjobs] at hmem
    rcases List.mem_append.1 hmem with h | h
    · exact ⟨j', h, rfl, hrun⟩
    · simp only [List.mem_singleton] at h
      subst h
      by_cases hna : (classify_prompt p).needsApproval <;> simp [hna] at hrun
  · intro now jid u s j' hmem hrun
    have hjobs : (Orch.approve_job now jid u s).jobs = (Repo.approve_job now jid u s).jobs := by
      simp only [Orch.approve_job, Repo.append_event]
      split <;> rfl
    rw [hjobs] at hmem
    exact running_origin_sqlUpdate (fun x => by simp) j' hmem hrun
  · intro now jid u s j' hmem hrun
    have hjobs : (Orch.reject_job now jid u s).jobs = (Repo.reject_job now jid u s).jobs := by
      simp only [Orch.reject_job, Repo.append_event, notify]
      split <;> rfl
    rw [hjobs] at hmem
    exact running_origin_sqlUpdate (fun x => by simp) j' hmem hrun
  · intro now jid s j' hmem hrun
    have hjobs : (Orch.cancel_job now jid s).jobs = (Repo.cancel_job now jid s).jobs := by
      simp only [Orch.cancel_job, Repo.append_event, notify]
      split <;> rfl
    rw [hjobs] at hmem
    exact running_origin_sqlUpdate (fun x => by simp) j' hmem hrun
  · intro now act outcome jid s j' hmem hrun
    cases hget : Repo.getJob s jid with
    | none =>
      simp only [Orch.run_job, hget] at hmem
      exact ⟨j', hmem, rfl, hrun⟩
    | some job =>
      cases outcome with
      | cancelledErr =>
        simp only [Orch.run_job, hget] at hmem
        by_cases hg : (job.mode == JobMode.session && truthy job.sessionName &&
            !(act (job.sessionName.getD ""))) = true
        · rw [if_pos hg] at hmem
          exact running_origin_sqlUpdate (fun x => by simp) j' hmem hrun
        · rw [if_neg hg] at hmem
          exact running_origin_sqlUpdate (fun x => by simp) j' hmem hrun
      | raised msg =>
        simp only [Orch.run_job, hget] at hmem
        by_cases hg : (job.mode == JobMode.session && truthy job.sessionName &&
            !(act (job.sessionName.getD ""))) = true
        · rw [if_pos hg] at hmem
          exact running_origin_sqlUpdate (fun x => by simp) j' hmem hrun
        · rw [if_neg hg] at hmem
          exact running_origin_sqlUpdate (fun x => by simp) j' hmem hrun
      | completed ec summary errTxt =>
        simp only [Orch.run_job, hget] at hmem
        by_cases hg : (job.mode == JobMode.session && truthy job.sessionName &&
            !(act (job.sessionName.getD ""))) = true
        · rw [if_pos hg] at hmem
          exact running_origin_sqlUpdate (fun x => by simp) j' hmem hrun
        · rw [if_neg hg] at hmem
          by_cases hec : (ec == 0) = true
          · rw [if_pos hec] at hmem
            exact running_origin_sqlUpdate (fun x => by simp) j' hmem hrun
          · rw [if_neg hec] at hmem
            exact running_origin_sqlUpdate (fun x => by simp) j' hmem hrun

/-- A queued low-risk job used by the reservation witness. -/
def jobQueuedW : Job :=
  { id := 1, status := .queued, mode := .ephemeral, prompt := "hi",
    createdAt := 0, updatedAt := 0 }

/-- A concrete store with a single queued job. -/
def stReserveW : SysState :=
  { jobs := [jobQueuedW], nextJobId := 2, events := [(1, "job_submitted")],
    notifications := [], clock := 1 }

/-- Witness for `reserve_next_runnable_spec` at the concrete store
`stReserveW`. -/
theorem reserve_next_runnable_spec_witness :
    ((stReserveW.jobs.map Job.id).Nodup ∧
      (Repo.reserve_next_runnable_job 4 stReserveW).1 =
        some { jobQueuedW with status := .running, updatedAt := 4, startedAt := some 4 }) ∧
    (∃ j0 ∈ stReserveW.jobs, Repo.runnableJob j0 = true ∧
      (∀ k ∈ stReserveW.jobs, Repo.runnableJob k = true → j0.id ≤ k.id) ∧
      ({ jobQueuedW with status := .running, updatedAt := 4, startedAt := some 4 } : Job) =
        { j0 with
          status := .running,
          updatedAt := 4,
          startedAt := some (j0.startedAt.getD 4) } ∧
      (Repo.reserve_next_runnable_job 4 stReserveW).2 =
        sqlUpdate (fun x => x.id == j0.id && x.status == JobStatus.queued)
          (fun x => { x with
            status := .running,
            updatedAt := 4,
            startedAt := some (x.startedAt.getD 4) }) stReserveW) :=
  ⟨⟨by decide, by decide⟩,
   (reserve_next_runnable_spec.1 4 stReserveW (by decide)).2.1
     { jobQueuedW with status := .running, updatedAt := 4, startedAt := some 4 } (by decide)⟩

/-! ## C5: event-log ordering -/

/-- The type of the first event recorded for a job (events are appended, so
list order is recording order). -/
def firstEventFor (jid : Nat) (evs : List (Nat × String)) : Option String :=
  (evs.find? (fun e => e.1 == jid)).map Prod.snd

/-- The claim's terminal event types. -/
def terminalEventType (t : String) : Bool :=
  t == "job_succeeded" || t == "job_failed" || t == "job_canceled"

/-- The claim's "no event after a terminal event" property of an event log. -/
def noEventAfterTerminal : List (Nat × String) → Bool
  | [] => true
  | e :: rest =>
    (!terminalEventType e.2 || rest.all (fun e2 => !(e2.1 == e.1))) &&
      noEventAfterTerminal rest

theorem firstEventFor_append_some {jid : Nat} {evs more : List (Nat × String)} {t : String}
    (h : firstEventFor jid evs = some t) : firstEventFor jid (evs ++ more) = some t := by
  simp only [firstEventFor, List.find?_append] at h ⊢
  cases hf : evs.find? (fun e => e.1 == jid) with
  | none => rw [hf] at h; cases h
  | some e =>
    rw [hf] at h
    simpa [Option.or] using h

theorem firstEventFor_append_none {jid : Nat} {evs more : List (Nat × String)}
    (h : ∀ e ∈ evs, e.1 ≠ jid) :
    firstEventFor jid (evs ++ more) = firstEventFor jid more := by
  simp only [firstEventFor, List.find?_append]
  have hf : evs.find? (fun e => e.1 == jid) = none := by
    rw [List.find?_eq_none]
    intro e he
    simpa using h e he
  rw [hf]
  simp [Option.or]

/-- The store invariant backing the event-log claims: job ids are bounded by
the autoincrement counter and unique, every event references an existing
job, and every job's first event is `job_submitted`. -/
structure GoodState (s : SysState) : Prop where
  idBound : ∀ j ∈ s.jobs, j.id < s.nextJobId
  idNodup : (s.jobs.map Job.id).Nodup
  eventsHaveJobs : ∀ e ∈ s.events, e.1 ∈ idsOf s
  submittedHead : ∀ j ∈ s.jobs, firstEventFor j.id s.events = some "job_submitted"

theorem goodState_notify {s : SysState} (m : String) (hg : GoodState s) :
    GoodState (notify m s) :=
  ⟨hg.idBound, hg.idNodup, hg.eventsHaveJobs, hg.submittedHead⟩

theorem goodState_append_event {s : SysState} {jid : Nat} (t : String)
    (hg : GoodState s) (hjid : jid ∈ idsOf s) :
    GoodState (Repo.append_event jid t s) := by
  refine ⟨hg.idBound, hg.idNodup, ?_, ?_⟩
  · intro e he
    rcases List.mem_append.1 he with h | h
    · exact hg.eventsHaveJobs e h
    · simp only [List.mem_singleton] at h
      subst h
      exact hjid
  · intro j hj
    exact firstEventFor_append_some (hg.submittedHead j hj)

theorem goodState_sqlUpdate {q : Job → Bool} {f : Job → Job} {s : SysState}
    (hidf : ∀ x, (f x).id = x.id) (hg : GoodState s) :
    GoodState (sqlUpdate q f s) := by
  have hids := idsOf_sqlUpdate (q := q) (f := f) s hidf
  refine ⟨?_, ?_, ?_, ?_⟩
  · intro j' hj'
    obtain ⟨j, hj, hje⟩ := mem_sqlUpdate_jobs hj'
    have : j'.id = j.id := by
      by_cases hc : q j <;> simp [hc, hidf] at hje <;> rw [hje] <;> simp [hidf]
    rw [this]
    exact hg.idBound j hj
  · have h2 := hids
    simp only [idsOf] at h2
    rw [h2]
    exact hg.idNodup
  · intro e he
    rw [hids]
    exact hg.eventsHaveJobs e he
  · intro j' hj'
    obtain ⟨j, hj, hje⟩ := mem_sqlUpdate_jobs hj'
    have : j'.id = j.id := by
      by_cases hc : q j <;> simp [hc, hidf] at hje <;> rw [hje] <;> simp [hidf]
    rw [this]
    exact hg.submittedHead j hj

theorem goodState_getJob_mem {s : SysState} {jid : Nat} {j : Job}
    (h : Repo.getJob s jid = some j) : jid ∈ idsOf s := by
  obtain ⟨hj, hid⟩ := getJob_mem h
  exact hid ▸ List.mem_map_of_mem Job.id hj

theorem goodState_submit {now : Nat} {p : String} {m : JobMode} {sn : Option String}
    {s : SysState} (hg : GoodState s) : GoodState (Orch.submit_job now p m sn s).1 := by
  have hfresh : s.nextJobId ∉ idsOf s := by
    intro hin
    simp only [idsOf, List.mem_map] at hin
    obtain ⟨j, hj, hje⟩ := hin
    exact absurd (hje ▸ hg.idBound j hj) (lt_irrefl _)
  have hnoev : ∀ e ∈ s.events, e.1 ≠ s.nextJobId := by
    intro e he heq
    exact hfresh (heq ▸ hg.eventsHaveJobs e he)
  have hcore : GoodState (Repo.append_event s.nextJobId "job_submitted"
      (Repo.create_job now p m sn (classify_prompt p).level
        (classify_prompt p).needsApproval
        (if (classify_prompt p).needsApproval then JobStatus.awaitingApproval
          else JobStatus.queued) s).1) := by
    refine ⟨?_, ?_, ?_, ?_⟩
    · intro j hj
      rcases List.mem_append.1 hj with h | h
      · exact Nat.lt_succ_of_lt (hg.idBound j h)
      · simp only [List.mem_singleton] at h
        subst h
        exact Nat.lt_succ_self _
    · show ((s.jobs ++ [_]).map Job.id).Nodup
      rw [List.map_append]
      rw [List.nodup_append]
      refine ⟨hg.idNodup, List.nodup_singleton _, ?_⟩
      intro a ha hb
      simp only [List.map_singleton, List.mem_singleton] at hb
      subst hb
      exact hfresh ha
    · intro e he
      rcases List.mem_append.1 he with h | h
      · show e.1 ∈ (s.jobs ++ [_]).map Job.id
        rw [List.map_append]
        exact List.mem_append_left _ (hg.eventsHaveJobs e h)
      · simp only [List.mem_singleton] at h
        subst h
        show s.nextJobId ∈ (s.jobs ++ [_]).map Job.id
        rw [List.map_append]
        refine List.mem_append_right _ ?_
        simp
    · intro j hj
      rcases List.mem_append.1 hj with h | h
      · exact firstEventFor_append_some (hg.submittedHead j h)
      · simp only [List.mem_singleton] at h
        subst h
        show firstEventFor s.nextJobId (s.events ++ [(s.nextJobId, "job_submitted")]) = _
        rw [firstEventFor_append_none hnoev]
        simp [firstEventFor]
  simp only [Orch.submit_job, Repo.create_job]
  by_cases hna : (classify_prompt p).needsApproval
  · simp only [hna, if_true]
    refine goodState_notify _ (goodState_append_event _ ?_ ?_)
    · simpa only [Orch.submit_job, Repo.create_job, hna, if_true] using hcore
    · show s.nextJobId ∈ (s.jobs ++ [_]).map Job.id
      rw [List.map_append]
      refine List.mem_append_right _ ?_
      simp
  · simp only [hna, if_false]
    simpa only [Orch.submit_job, Repo.create_job, hna, if_true] using hcore

theorem goodState_applyOp {s : SysState} (op : Op) (hg : GoodState s) :
    GoodState (applyOp s op) := by
  have hclock : ∀ s' : SysState, GoodState s' → GoodState { s' with clock := s.clock + 1 } :=
    fun s' h => ⟨h.idBound, h.idNodup, h.eventsHaveJobs, h.submittedHead⟩
  cases op with
  | submit p m sn =>
    exact hclock _ (goodState_submit hg)
  | approve jid u =>
    refine hclock _ ?_
    simp only [applyOp, Orch.approve_job]
    have hg1 : GoodState (Repo.approve_job s.clock jid u s) :=
      goodState_sqlUpdate (fun _ => rfl) hg
    cases hj : Repo.getJob (Repo.approve_job s.clock jid u s) jid with
    | none => simpa [hj] using hg1
    | some j =>
      simp only [hj, Option.isSome_some, if_true]
      exact goodState_append_event _ hg1 (goodState_getJob_mem hj)
  | reject jid u =>
    refine hclock _ ?_
    simp only [applyOp, Orch.reject_job]
    have hg1 : GoodState (Repo.reject_job s.clock jid u s) :=
      goodState_sqlUpdate (fun _ => rfl) hg
    cases hj : Repo.getJob (Repo.reject_job s.clock jid u s) jid with
    | none => simpa [hj] using hg1
    | some j =>
      simp only [hj, Option.isSome_some, if_true]
      exact goodState_notify _ (goodState_append_event _ hg1 (goodState_getJob_mem hj))
  | cancel jid =>
    refine hclock _ ?_
    simp only [applyOp, Orch.cancel_job]
    have hg1 : GoodState (Repo.cancel_job s.clock jid s) :=
      goodState_sqlUpdate (fun _ => rfl) hg
    cases hj : Repo.getJob (Repo.cancel_job s.clock jid s) jid with
    | none => simpa [hj] using hg1
    | some j =>
      simp only [hj, Option.isSome_some, if_true]
      exact goodState_notify _ (goodState_append_event _ hg1 (goodState_getJob_mem hj))
  | reserve =>
    refine hclock _ ?_
    simp only [applyOp]
    cases hm : Repo.minRunnable s.jobs with
    | none => simpa [Repo.reserve_next_runnable_job, hm] using hg
    | some row =>
      simp only [Repo.reserve_next_runnable_job, hm]
      by_cases hrc : ((s.jobs.filter
          (fun j => j.id == row.id && j.status == JobStatus.queued)).length ≠ 1)
      · rw [if_pos hrc]
        exact goodState_sqlUpdate (fun _ => rfl) hg
      · rw [if_neg hrc]
        exact goodState_sqlUpdate (fun _ => rfl) hg
  | runJob jid act outcome =>
    refine hclock _ ?_
    simp only [applyOp]
    cases hget : Repo.getJob s jid with
    | none => simpa [Orch.run_job, hget] using hg
    | some job =>
      have hjid : jid ∈ idsOf s := goodState_getJob_mem hget
      cases outcome with
      | cancelledErr =>
        simp only [Orch.run_job, hget]
        by_cases hgd : (job.mode == JobMode.session && truthy job.sessionName &&
            !(act (job.sessionName.getD ""))) = true
        · rw [if_pos hgd]
          refine goodState_notify _ (goodState_append_event _ ?_ ?_)
          · exact goodState_sqlUpdate (fun _ => rfl) hg
          · rw [show idsOf (Repo.set_job_status s.clock jid JobStatus.failed
                (some "Session mode requested but session is inactive")
                (some ("Session '" ++ job.sessionName.getD "" ++ "' is inactive"))
                (some 2) none true s) = idsOf s from idsOf_sqlUpdate s (fun _ => rfl)]
            exact hjid
        · rw [if_neg hgd]
          refine goodState_notify _ (goodState_append_event _ ?_ ?_)
          · exact goodState_sqlUpdate (fun _ => rfl)
              (goodState_append_event _ hg hjid)
          · rw [show idsOf (Repo.set_job_status s.clock jid JobStatus.canceled
                (some "Job canceled while running") none (some 130) none true
                (Repo.append_event jid "job_started" s)) =
              idsOf (Repo.append_event jid "job_started" s) from
              idsOf_sqlUpdate _ (fun _ => rfl)]
            exact hjid
      | raised msg =>
        simp only [Orch.run_job, hget]
        by_cases hgd : (job.mode == JobMode.session && truthy job.sessionName &&
            !(act (job.sessionName.getD ""))) = true
        · rw [if_pos hgd]
          refine goodState_notify _ (goodState_append_event _ ?_ ?_)
          · exact goodState_sqlUpdate (fun _ => rfl) hg
          · rw [show idsOf (Repo.set_job_status s.clock jid JobStatus.failed
                (some "Session mode requested but session is inactive")
                (some ("Session '" ++ job.sessionName.getD "" ++ "' is inactive"))
                (some 2) none true s) = idsOf s from idsOf_sqlUpdate s (fun _ => rfl)]
            exact hjid
        · rw [if_neg hgd]
          refine goodState_notify _ (goodState_append_event _ ?_ ?_)
          · exact goodState_sqlUpdate (fun _ => rfl)
              (goodState_append_event _ hg hjid)
          · rw [show idsOf (Repo.set_job_status s.clock jid JobStatus.failed
                (some "Executor raised an unexpected error") (some msg) (some 1) none true
                (Repo.append_event jid "job_started" s)) =
              idsOf (Repo.append_event jid "job_started" s) from
              idsOf_sqlUpdate _ (fun _ => rfl)]
            exact hjid
      | completed ec summary errTxt =>
        simp only [Orch.run_job, hget]
        by_cases hgd : (job.mode == JobMode.session && truthy job.sessionName &&
            !(act (job.sessionName.getD ""))) = true
        · rw [if_pos hgd]
          refine goodState_notify _ (goodState_append_event _ ?_ ?_)
          · exact goodState_sqlUpdate (fun _ => rfl) hg
          · rw [show idsOf (Repo.set_job_status s.clock jid JobStatus.failed
                (some "Session mode requested but session is inactive")
                (some ("Session '" ++ job.sessionName.getD "" ++ "' is inactive"))
                (some 2) none true s) = idsOf s from idsOf_sqlUpdate s (fun _ => rfl)]
            exact hjid
        · rw [if_neg hgd]
          by_cases hec : (ec == 0) = true
          · rw [if_pos hec]
            refine goodState_notify _ (goodState_notify _ (goodState_append_event _ ?_ ?_))
            · exact goodState_sqlUpdate (fun _ => rfl)
                (goodState_append_event _ hg hjid)
            · rw [show idsOf (Repo.set_job_status s.clock jid JobStatus.succeeded
                  (some summary) none (some ec) none true
                  (Repo.append_event jid "job_started" s)) =
                idsOf (Repo.append_event jid "job_started" s) from
                idsOf_sqlUpdate _ (fun _ => rfl)]
              exact hjid
          · rw [if_neg hec]
            refine goodState_notify _ (goodState_notify _ (goodState_append_event _ ?_ ?_))
            · exact goodState_sqlUpdate (fun _ => rfl)
                (goodState_append_event _ hg hjid)
            · rw [show idsOf (Repo.set_job_status s.clock jid JobStatus.failed
                  (some summary) errTxt (some ec) none true
                  (Repo.append_event jid "job_started" s)) =
                idsOf (Repo.append_event jid "job_started" s) from
                idsOf_sqlUpdate _ (fun _ => rfl)]
              exact hjid

theorem goodState_runOps {s : SysState} (ops : List Op) (hg : GoodState s) :
    GoodState (runOps ops s) := by
  induction ops generalizing s with
  | nil => exact hg
  | cons op rest ih => exact ih (goodState_applyOp op hg)

theorem goodState_init : GoodState initState := by
  refine ⟨?_, ?_, ?_, ?_⟩ <;> simp [initState, idsOf]

/-- The operation trace used by the event-log counterexample and witness:
submit a low-risk job, reserve it, run it to success, then cancel it. -/
def opsTraceW : List Op :=
  [.submit "hi" .ephemeral none, .reserve,
   .runJob 1 (fun _ => true) (.completed 0 "ok" none), .cancel 1]

/-- C5 counterexample: after a job succeeds, `Orchestrator.cancel_job`
still appends a `job_canceled` event (it appends unconditionally), so a
terminal event is followed by a further event for the same job. -/
theorem event_log_counterexample :
    (runOps opsTraceW initState).events =
      [(1, "job_submitted"), (1, "job_started"), (1, "job_succeeded"), (1, "job_canceled")] ∧
    noEventAfterTerminal (runOps opsTraceW initState).events = false := by
  decide

/-- C5 (amended): in every reachable store, `job_submitted` is the first
event recorded for each job; but terminal events are not final:
`Orchestrator.cancel_job` on an already-terminal job leaves the job record
(and the whole jobs table) unchanged yet still appends a `job_canceled`
event and sends a cancellation notification. -/
theorem event_log_spec :
    (∀ ops : List Op, ∀ e ∈ (runOps ops initState).events,
      firstEventFor e.1 (runOps ops initState).events = some "job_submitted") ∧
    (∀ (now jid : Nat) (s : SysState) (j : Job),
      (s.jobs.map Job.id).Nodup → Repo.getJob s jid = some j → j.isTerminal = true →
      Orch.cancel_job now jid s = { s with
        events := s.events ++ [(jid, "job_canceled")],
        notifications := s.notifications ++ ["Job canceled"] }) := by
  constructor
  · intro ops e he
    have hg := goodState_runOps ops goodState_init
    have hin := hg.eventsHaveJobs e he
    simp only [idsOf, List.mem_map] at hin
    obtain ⟨j, hj, hje⟩ := hin
    rw [← hje]
    exact hg.submittedHead j hj
  · intro now jid s j hnd hget hterm
    have hnoop := cancel_job_terminal_noop now jid hnd hget hterm
    simp only [Orch.cancel_job, hnoop, hget, Option.isSome_some, if_true]
    rfl

/-- Witness for `event_log_spec`: the submitted-first property at the
concrete trace `opsTraceW`, and the cancel-on-terminal behaviour at the
concrete canceled job of `stCancelW`. -/
theorem event_log_spec_witness :
    ((1, "job_submitted") ∈ (runOps opsTraceW initState).events ∧
      (stCancelW.jobs.map Job.id).Nodup ∧
      Repo.getJob stCancelW 2 = some jobCanceledW ∧ jobCanceledW.isTerminal = true) ∧
    firstEventFor 1 (runOps opsTraceW initState).events = some "job_submitted" ∧
    Orch.cancel_job 9 2 stCancelW = { stCancelW with
      events := stCancelW.events ++ [(2, "job_canceled")],
      notifications := stCancelW.notifications ++ ["Job canceled"] } :=
  ⟨⟨by decide, by decide, by decide, by decide⟩,
   event_log_spec.1 opsTraceW (1, "job_submitted") (by decide),
   event_log_spec.2 9 2 stCancelW jobCanceledW (by decide) (by decide) (by decide)⟩

/-! ## C10: runtime profile personality (`executor.py`) -/

/-- `PERSONALITY_PRESETS` in dict insertion order, including the legacy
aliases retained for backwards compatibility. -/
def PERSONALITY_PRESETS : List (String × String) :=
  [("none", ""),
   ("friendly", "Respond in a friendly, collaborative tone."),
   ("pragmatic", "Respond as a pragmatic software engineer: direct, concise, and actionable."),
   ("default", ""),
   ("concise", "Respond concisely with the direct answer first."),
   ("detailed", "Respond with structured detail and include key tradeoffs."),
   ("coding", "Prioritize actionable engineering output with explicit assumptions.")]

/-- Insertion step for Python `sorted` over strings. -/
def insertStr (x : String) : List String → List String
  | [] => [x]
  | y :: ys => if x ≤ y then x :: y :: ys else y :: insertStr x ys

/-- Python `sorted` over strings (insertion sort; lexicographic order). -/
def sortStrs : List String → List String
  | [] => []
  | x :: xs => insertStr x (sortStrs xs)

/-- Python `", ".join(...)`. -/
def joinComma : List String → String
  | [] => ""
  | [x] => x
  | x :: y :: xs => x ++ ", " ++ joinComma (y :: xs)

/-- `executor.RuntimeProfile` (workdir override kept as its string form). -/
structure RuntimeProfile where
  model : Option String := none
  reasoningEffort : Option String := none
  sandboxMode : Option String := none
  approvalPolicy : Option String := none
  webSearch : Option String := none
  experimentalFeatures : List String := []
  personality : String := "none"
  personalityInstruction : String := ""
  workdirOverride : Option String := none
  deriving DecidableEq, Repr

/-- `CodexExecutor.set_personality`: a raised `RuntimeProfileError` is the
`some message` component, and in that case the runtime profile is returned
unchanged (the source raises before mutating). -/
def set_personality (rt : RuntimeProfile) (personality : String)
    (customInstruction : Option String) : RuntimeProfile × Option String :=
  let normalized := pyLower (pyStrip personality)
  if normalized = "custom" then
    let instruction := pyStrip (customInstruction.getD "")
    if instruction = "" then
      (rt, some "Custom personality requires an instruction string.")
    else
      ({ rt with personality := "custom", personalityInstruction := instruction }, none)
  else if (PERSONALITY_PRESETS.map Prod.fst).contains normalized then
    ({ rt with personality := normalized, personalityInstruction := "" }, none)
  else
    (rt, some ("Invalid personality '" ++ personality ++ "'. Allowed: " ++
      joinComma (sortStrs (PERSONALITY_PRESETS.map Prod.fst)) ++ ", custom"))

/-- C10 counterexample: `"concise"` lies outside the claim's recognized set
{none, friendly, pragmatic, custom}, yet `set_personality` accepts it (it is
a legacy alias kept in `PERSONALITY_PRESETS`), so the claim's "every name
outside the set fails" is false on the code. -/
theorem set_personality_counterexample :
    (set_personality {} "concise" none).2 = none ∧
    (set_personality {} "concise" none).1.personality = "concise" ∧
    ("concise" ∈ (["none", "friendly", "pragmatic", "custom"] : List String)) = False := by
  refine ⟨by decide, by decide, by simp⟩

/-- C10 (amended): for every personality name whose normalized form is
outside the recognized preset set {none, friendly, pragmatic, default,
concise, detailed, coding} and is not `custom`, `set_personality` fails with
`RuntimeProfileError` carrying a message listing the allowed values and
leaves the runtime profile unchanged; setting `custom` without a non-empty
instruction also fails and leaves the profile unchanged. -/
theorem set_personality_spec (rt : RuntimeProfile) (p : String) (instr : Option String) :
    (pyLower (pyStrip p) ≠ "custom" →
      (PERSONALITY_PRESETS.map Prod.fst).contains (pyLower (pyStrip p)) = false →
      set_personality rt p instr =
        (rt, some ("Invalid personality '" ++ p ++ "'. Allowed: " ++
          joinComma (sortStrs (PERSONALITY_PRESETS.map Prod.fst)) ++ ", custom"))) ∧
    (pyLower (pyStrip p) = "custom" → pyStrip (instr.getD "") = "" →
      set_personality rt p instr =
        (rt, some "Custom personality requires an instruction string.")) := by
  constructor
  · intro hnc hnp
    simp only [set_personality, if_neg hnc]
    rw [if_neg (by rw [hnp]; simp)]
  · intro hc hi
    simp [set_personality, hc, hi]

/-- Witness for `set_personality_spec` at the concrete inputs
`"sarcastic"` (unknown name) and `"custom"` without an instruction. -/
theorem set_personality_spec_witness :
    (pyLower (pyStrip "sarcastic") ≠ "custom" ∧
      (PERSONALITY_PRESETS.map Prod.fst).contains (pyLower (pyStrip "sarcastic")) = false ∧
      pyLower (pyStrip "custom") = "custom" ∧ pyStrip ((some "   ").getD "") = "") ∧
    set_personality {} "sarcastic" none =
      ({}, some ("Invalid personality '" ++ "sarcastic" ++ "'. Allowed: " ++
        joinComma (sortStrs (PERSONALITY_PRESETS.map Prod.fst)) ++ ", custom")) ∧
    set_personality {} "custom" (some "   ") =
      ({}, some "Custom personality requires an instruction string.") :=
  ⟨⟨by decide, by decide, by decide, by decide⟩,
   (set_personality_spec {} "sarcastic" none).1 (by decide) (by decide),
   (set_personality_spec {} "custom" (some "   ")).2 (by decide) (by decide)⟩

/-! ## C1: `ExecutionResult` and the `exec_cwd` field

`models.ExecutionResult` is a `@dataclass(slots=True)`; a keyword
construction with an unknown keyword raises `TypeError`, and attribute
access on a missing slot raises `AttributeError`.  The field list below is
transcribed from `models.py`, the keyword lists from the two
`ExecutionResult(...)` constructions in `CodexExecutor.execute` and the
`result.exec_cwd` read in `Orchestrator._run_job`. -/

/-- The declared fields of `models.ExecutionResult`. -/
def ExecutionResultFields : List String :=
  ["exit_code", "stdout_path", "stderr_path", "summary", "error_text"]

/-- Keywords passed by `CodexExecutor.execute` when building the timeout
result. -/
def executorTimeoutResultKwargs : List String :=
  ["exit_code", "stdout_path", "stderr_path", "summary", "error_text", "exec_cwd"]

/-- Keywords passed by `CodexExecutor.execute` when building the
normal-completion result. -/
def executorCompletionResultKwargs : List String :=
  ["exit_code", "stdout_path", "stderr_path", "summary", "error_text", "exec_cwd"]

/-- A Python dataclass keyword construction succeeds iff every keyword names
a declared field. -/
def dataclassKwCallOk (fields kwargs : List String) : Bool :=
  kwargs.all fields.contains

/-- C1: both `ExecutionResult(...)` constructions in `CodexExecutor.execute`
pass the keyword `exec_cwd`, which is not a field of the
`models.ExecutionResult` dataclass, so every completed execution raises
`TypeError` instead of returning a result carrying `exec_cwd` (and the
orchestrator's `result.exec_cwd` read would raise `AttributeError` on a
slotted instance). -/
theorem execution_result_exec_cwd_bug :
    dataclassKwCallOk ExecutionResultFields executorCompletionResultKwargs = false ∧
    dataclassKwCallOk ExecutionResultFields executorTimeoutResultKwargs = false ∧
    ExecutionResultFields.contains "exec_cwd" = false := by
  decide

/-! ## Artifact collector (`artifacts.py`) — C6 and C7

Paths are modelled as canonical absolute component lists.  The filesystem is
explicit data: the run-directory walk is the list of regular-file entries
that `sorted(run_dir.rglob("*"))` + `is_file()` yields (each carrying the
lexical path, the `Path.resolve()` result — which follows symlinks — the
stat size and the SHA-256 of the contents), and the text-scan pass gets a
filesystem oracle for resolution/stat.  `Path.relative_to(root)` succeeds
exactly when the root's components are a prefix of the path's. -/

/-- One regular file met by the run-directory walk. -/
structure FSFile where
  lexicalPath : List String
  resolvedPath : List String
  sizeBytes : Nat
  sha256 : String
  deriving DecidableEq, Repr

/-- `pathlib` suffix of a file name: the substring from the last dot, unless
the dot is leading or trailing. -/
def suffixOfName (name : List Char) : List Char :=
  if name.contains '.' then
    let k := (name.reverse.takeWhile (fun c => !(c == '.'))).length
    let i := name.length - 1 - k
    if 0 < i ∧ i < name.length - 1 then name.drop i else []
  else []

/-- `Path(...).suffix`. -/
def pathSuffix (p : List String) : String := ⟨suffixOfName ((p.getLast?.getD "").data)⟩

/-- The collector's slice of `config.Settings`. -/
structure ArtifactSettings where
  allowedArtifactExtensions : List String
  maxArtifactBytes : Nat
  deriving Repr

/-- `config.DEFAULT_ALLOWED_EXTENSIONS`. -/
def DEFAULT_ALLOWED_EXTENSIONS : List String :=
  [".txt", ".log", ".json", ".png", ".jpg", ".jpeg", ".gif", ".webp", ".mp4", ".pdf"]

/-- `artifacts._kind_for_extension`. -/
def kind_for_extension (ext : String) : String :=
  let e := pyLower ext
  if e ∈ ([".png", ".jpg", ".jpeg", ".gif", ".webp"] : List String) then "image"
  else if e ∈ ([".mp4", ".webm"] : List String) then "video"
  else if e ∈ ([".log", ".txt", ".json"] : List String) then "log"
  else if e = ".pdf" then "document"
  else "file"

/-- An artifact row (`job_id` and the autoincrement id live in the store). -/
structure ArtifactRec where
  kind : String
  path : List String
  sizeBytes : Nat
  sha256 : String
  deriving DecidableEq, Repr

/-- `ArtifactService.register_file` on an existing regular file: reject on a
non-empty extension outside the allow-list, zero size, or size above the
cap; otherwise record one artifact at the resolved path with the SHA-256
digest and the kind classified from the (lexical) extension. -/
def register_file (cfg : ArtifactSettings) (kind : Option String) (f : FSFile) :
    Option ArtifactRec :=
  let ext := pyLower (pathSuffix f.lexicalPath)
  if ext ≠ "" ∧ cfg.allowedArtifactExtensions.contains ext = false then none
  else if f.sizeBytes = 0 then none
  else if f.sizeBytes > cfg.maxArtifactBytes then none
  else some ⟨kind.getD (kind_for_extension ext), f.resolvedPath, f.sizeBytes, f.sha256⟩

/-- `ArtifactService.collect_from_run_dir`: register every regular file of
the recursive walk (no path allow-list check is performed on this pass). -/
def collect_from_run_dir (cfg : ArtifactSettings) (files : List FSFile) : List ArtifactRec :=
  files.filterMap (register_file cfg none)

/-- `ArtifactService._is_under_any_root` on canonical paths. -/
def is_under_any_root (p : List String) (roots : List (List String)) : Bool :=
  roots.any (fun r => r.isPrefixOf p)

/-- The filesystem oracle used by the output-text pass. -/
structure FSModel where
  resolvePath : List String → List String
  isRegularFile : List String → Bool
  sizeOfFile : List String → Nat
  shaOfFile : List String → String

/-- A path candidate extracted from output text, after `~`-expansion: the
backtick/regex extraction of `_iter_path_candidates` produces the candidate
strings; the containment property below holds for every candidate list. -/
structure PathCandidate where
  isUrl : Bool
  isAbsolute : Bool
  components : List String
  deriving DecidableEq, Repr

/-- `ArtifactService._resolve_candidate`: drop URLs, resolve (relative paths
against `base_dir`), require an existing regular file inside at least one
allowed root. -/
def resolve_candidate (fs : FSModel) (candidate : PathCandidate) (baseDir : List String)
    (roots : List (List String)) : Option (List String) :=
  if candidate.isUrl then none
  else
    let resolved := if candidate.isAbsolute then fs.resolvePath candidate.components
      else fs.resolvePath (baseDir ++ candidate.components)
    if fs.isRegularFile resolved = false then none
    else if is_under_any_root resolved roots = false then none
    else some resolved

/-- `ArtifactService.register_file` invoked on a resolved path (text pass). -/
def register_file_at (fs : FSModel) (cfg : ArtifactSettings) (p : List String) :
    Option ArtifactRec :=
  if fs.isRegularFile p = false then none
  else register_file cfg none ⟨p, fs.resolvePath p, fs.sizeOfFile p, fs.shaOfFile p⟩

/-- One candidate step of `collect_from_output_texts`: resolve, skip paths
already registered for the job, register, and extend the dedupe set only on
a successful registration. -/
def collectTextStep (fs : FSModel) (cfg : ArtifactSettings) (baseDir : List String)
    (roots : List (List String)) (st : List (List String) × List ArtifactRec)
    (candidate : PathCandidate) : List (List String) × List ArtifactRec :=
  match resolve_candidate fs candidate baseDir roots with
  | none => st
  | some resolved =>
    if st.1.contains resolved then st
    else
      match register_file_at fs cfg resolved with
      | none => st
      | some a => (st.1 ++ [resolved], st.2 ++ [a])

/-- `ArtifactService.collect_from_output_texts`: fold the unique candidates
of all texts through `collectTextStep`, starting from the job's already
registered resolved paths; returns the added artifacts. -/
def collect_from_output_texts (fs : FSModel) (cfg : ArtifactSettings)
    (candidates : List PathCandidate) (baseDir : List String)
    (roots : List (List String)) (existing : List (List String)) : List ArtifactRec :=
  (candidates.foldl (collectTextStep fs cfg baseDir roots) (existing, [])).2

/-- The acceptance condition of the run-directory scan as the amended claim
states it (spec-side characterisation, to be compared with `register_file`):
empty-or-allow-listed extension, nonzero size, size within the cap. -/
def runDirAcceptSpec (cfg : ArtifactSettings) (f : FSFile) : Bool :=
  (pyLower (pathSuffix f.lexicalPath) == "" ||
    cfg.allowedArtifactExtensions.contains (pyLower (pathSuffix f.lexicalPath))) &&
  !(f.sizeBytes == 0) && decide (f.sizeBytes ≤ cfg.maxArtifactBytes)

theorem register_file_eq (cfg : ArtifactSettings) (f : FSFile) :
    register_file cfg none f =
      (if runDirAcceptSpec cfg f then
        some ⟨kind_for_extension (pyLower (pathSuffix f.lexicalPath)), f.resolvedPath,
          f.sizeBytes, f.sha256⟩
      else none) := by
  simp only [register_file]
  split_ifs <;> (try simp_all [runDirAcceptSpec]) <;> omega

/-- C7 counterexample: a file without an extension (such as `README`) is
registered by the run-directory scan even though its (empty) extension is
not in the allow-list — `register_file` only applies the allow-list check
to a non-empty extension. -/
theorem collect_run_dir_counterexample :
    collect_from_run_dir ⟨DEFAULT_ALLOWED_EXTENSIONS, 50000000⟩
        [⟨["runs", "1", "README"], ["runs", "1", "README"], 5, "h1"⟩] =
      [⟨"file", ["runs", "1", "README"], 5, "h1"⟩] ∧
    DEFAULT_ALLOWED_EXTENSIONS.contains
      (pyLower (pathSuffix (["runs", "1", "README"] : List String))) = false := by
  decide

/-- C7 (amended): the run-directory scan records, in walk order, exactly one
Artifact per regular file whose extension is empty or in the allow-list,
whose size is nonzero, and whose size does not exceed the configured
max-bytes; a rejected file records nothing, and each recorded Artifact
carries the file's SHA-256 digest and a kind classified from its
extension. -/
theorem collect_run_dir_spec (cfg : ArtifactSettings) (files : List FSFile) :
    collect_from_run_dir cfg files =
      (files.filter (runDirAcceptSpec cfg)).map
        (fun f => ⟨kind_for_extension (pyLower (pathSuffix f.lexicalPath)),
          f.resolvedPath, f.sizeBytes, f.sha256⟩) := by
  induction files with
  | nil => rfl
  | cons f rest ih =>
    simp only [collect_from_run_dir, List.filterMap_cons, List.filter_cons] at ih ⊢
    rw [register_file_eq]
    by_cases hacc : runDirAcceptSpec cfg f
    · simp only [hacc, if_true, List.map_cons]
      rw [ih]
    · simp only [hacc, if_false, Bool.false_eq_true]
      rw [ih]

/-- Witness instantiation of `collect_run_dir_spec` at a concrete
configuration and walk. -/
theorem collect_run_dir_spec_witness :
    collect_from_run_dir ⟨DEFAULT_ALLOWED_EXTENSIONS, 50000000⟩
        [⟨["runs", "1", "img.png"], ["runs", "1", "img.png"], 4, "h2"⟩] =
      (([⟨["runs", "1", "img.png"], ["runs", "1", "img.png"], 4, "h2"⟩] :
          List FSFile).filter
        (runDirAcceptSpec ⟨DEFAULT_ALLOWED_EXTENSIONS, 50000000⟩)).map
        (fun f => ⟨kind_for_extension (pyLower (pathSuffix f.lexicalPath)),
          f.resolvedPath, f.sizeBytes, f.sha256⟩) :=
  collect_run_dir_spec ⟨DEFAULT_ALLOWED_EXTENSIONS, 50000000⟩
    [⟨["runs", "1", "img.png"], ["runs", "1", "img.png"], 4, "h2"⟩]

theorem register_file_path {cfg : ArtifactSettings} {k : Option String} {f : FSFile}
    {a : ArtifactRec} (h : register_file cfg k f = some a) : a.path = f.resolvedPath := by
  simp only [register_file] at h
  split_ifs at h
  cases h
  rfl

theorem resolve_candidate_some {fs : FSModel} {c : PathCandidate} {baseDir : List String}
    {roots : List (List String)} {r : List String}
    (h : resolve_candidate fs c baseDir roots = some r) :
    is_under_any_root r roots = true ∧
      (r = fs.resolvePath c.components ∨ r = fs.resolvePath (baseDir ++ c.components)) := by
  simp only [resolve_candidate] at h
  by_cases hu : c.isUrl
  · rw [if_pos hu] at h; cases h
  · rw [if_neg hu] at h
    by_cases hab : c.isAbsolute
    · simp only [hab, if_true] at h
      split_ifs at h with h1 h2
      cases h
      exact ⟨Bool.not_eq_false _ ▸ (by simpa using h2), Or.inl rfl⟩
    · simp only [hab, Bool.false_eq_true, if_false] at h
      split_ifs at h with h1 h2
      cases h
      exact ⟨Bool.not_eq_false _ ▸ (by simpa using h2), Or.inr rfl⟩

/-- C6 counterexample: the run-directory scan performs no allow-list check,
so a symlink inside the run directory pointing at an outside file (the walk
sees lexical path `runs/1/leak.txt`, `is_file`/`stat`/`resolve` follow the
link to `/home/secret.txt`) registers an Artifact whose resolved path lies
inside no allowed root. -/
theorem artifact_allowlist_counterexample :
    collect_from_run_dir ⟨DEFAULT_ALLOWED_EXTENSIONS, 50000000⟩
        [⟨["runs", "1", "leak.txt"], ["home", "secret.txt"], 5, "h3"⟩] =
      [⟨"log", ["home", "secret.txt"], 5, "h3"⟩] ∧
    is_under_any_root ["home", "secret.txt"] [["runs"], ["work"]] = false := by
  decide

/-- C6 (amended): every Artifact registered by the output-text pass has its
resolved path inside at least one allowed root (the pass checks
`_is_under_any_root` before registering); the run-directory pass performs no
allow-list check — its artifacts' paths are exactly the resolved paths of
the files under the run directory, so they lie inside the allowed roots
only when no symlink escapes them (and a symlink to an outside file is
followed and registered outside every root, as the counterexample shows). -/
theorem artifact_allowlist_spec (fs : FSModel) (cfg : ArtifactSettings)
    (candidates : List PathCandidate) (baseDir : List String)
    (roots : List (List String)) (existing : List (List String))
    (hidem : ∀ p, fs.resolvePath (fs.resolvePath p) = fs.resolvePath p) :
    (∀ a ∈ collect_from_output_texts fs cfg candidates baseDir roots existing,
      is_under_any_root a.path roots = true) ∧
    (∀ files : List FSFile, ∀ a ∈ collect_from_run_dir cfg files,
      ∃ f ∈ files, a.path = f.resolvedPath) ∧
    (∀ files : List FSFile,
      (∀ f ∈ files, is_under_any_root f.resolvedPath roots = true) →
      ∀ a ∈ collect_from_run_dir cfg files, is_under_any_root a.path roots = true) := by
  have hrun : ∀ files : List FSFile, ∀ a ∈ collect_from_run_dir cfg files,
      ∃ f ∈ files, a.path = f.resolvedPath := by
    intro files a ha
    simp only [collect_from_run_dir, List.mem_filterMap] at ha
    obtain ⟨f, hf, hreg⟩ := ha
    exact ⟨f, hf, register_file_path hreg⟩
  refine ⟨?_, hrun, ?_⟩
  · have hstep : ∀ (st : List (List String) × List ArtifactRec) (c : PathCandidate),
        (∀ a ∈ st.2, is_under_any_root a.path roots = true) →
        ∀ a ∈ (collectTextStep fs cfg baseDir roots st c).2,
          is_under_any_root a.path roots = true := by
      intro st c hst a ha
      simp only [collectTextStep] at ha
      cases hres : resolve_candidate fs c baseDir roots with
      | none =>
        simp only [hres] at ha
        exact hst a ha
      | some resolved =>
        simp only [hres] at ha
        by_cases hdup : st.1.contains resolved
        · rw [if_pos hdup] at ha
          exact hst a ha
        · rw [if_neg hdup] at ha
          cases hreg : register_file_at fs cfg resolved with
          | none =>
            simp only [hreg] at ha
            exact hst a ha
          | some a' =>
            simp only [hreg] at ha
            rcases List.mem_append.1 ha with hin | hin
            · exact hst a hin
            · simp only [List.mem_singleton] at hin
              subst hin
              obtain ⟨hund, hform⟩ := resolve_candidate_some hres
              have hpath : a.path = fs.resolvePath resolved := by
                simp only [register_file_at] at hreg
                split_ifs at hreg
                exact register_file_path hreg
              have hfix : fs.resolvePath resolved = resolved := by
                rcases hform with hfo | hfo <;> rw [hfo] <;> exact hidem _
              rw [hpath, hfix]
              exact hund
    have hfold : ∀ (cs : List PathCandidate) (st : List (List String) × List ArtifactRec),
        (∀ a ∈ st.2, is_under_any_root a.path roots = true) →
        ∀ a ∈ (cs.foldl (collectTextStep fs cfg baseDir roots) st).2,
          is_under_any_root a.path roots = true := by
      intro cs
      induction cs with
      | nil => intro st hst; exact hst
      | cons c rest ih =>
        intro st hst
        exact ih _ (hstep st c hst)
    intro a ha
    exact hfold candidates (existing, []) (by intro a' ha'; cases ha') a ha
  · intro files hroots a ha
    obtain ⟨f, hf, hpath⟩ := hrun files a ha
    rw [hpath]
    exact hroots f hf

/-- A concrete filesystem oracle for the allow-list witness: resolution is
the identity and exactly `runs/17/img.png` exists. -/
def fsW : FSModel :=
  { resolvePath := fun p => p,
    isRegularFile := fun p => p == ["runs", "17", "img.png"],
    sizeOfFile := fun _ => 4,
    shaOfFile := fun _ => "h4" }

/-- Witness for `artifact_allowlist_spec`: a backtick-quoted reference to
`runs/17/img.png` is collected and its path lies under the runs root. -/
theorem artifact_allowlist_spec_witness :
    ((∀ p, fsW.resolvePath (fsW.resolvePath p) = fsW.resolvePath p) ∧
      (⟨"image", ["runs", "17", "img.png"], 4, "h4"⟩ : ArtifactRec) ∈
        collect_from_output_texts fsW ⟨DEFAULT_ALLOWED_EXTENSIONS, 50000000⟩
          [⟨false, true, ["runs", "17", "img.png"]⟩] ["work"] [["runs"], ["work"]] []) ∧
    is_under_any_root
      (⟨"image", ["runs", "17", "img.png"], 4, "h4"⟩ : ArtifactRec).path
      [["runs"], ["work"]] = true :=
  ⟨⟨fun _ => rfl, by decide⟩,
   (artifact_allowlist_spec fsW ⟨DEFAULT_ALLOWED_EXTENSIONS, 50000000⟩
       [⟨false, true, ["runs", "17", "img.png"]⟩] ["work"] [["runs"], ["work"]] []
       (fun _ => rfl)).1
     ⟨"image", ["runs", "17", "img.png"], 4, "h4"⟩ (by decide)⟩

/-! ## Executor flag injection (`executor.py`) — C8

`_has_output_last_message_flag` tokenises the command with
`shlex.split` (POSIX mode), so the POSIX lexer is embedded as a structural
state machine: whitespace splits tokens; single quotes are literal runs;
double quotes allow `\"` and `\\` escapes; a backslash outside quotes
escapes the next character; an unclosed quote or trailing escape raises
`ValueError` (the `none` result, which the caller catches and replaces by a
substring fallback). -/

/-- `shlex` whitespace (`' \t\r\n'`). -/
def shlexWS (c : Char) : Bool := c = ' ' || c = '\t' || c = '\x0d' || c = '\n'

/-- Lexer mode: outside quotes, inside single/double quotes, or after an
escape character (outside quotes / inside double quotes). -/
inductive LexMode where
  | plain
  | single
  | double
  | escPlain
  | escDouble
  deriving DecidableEq, Repr

/-- Characters of the token being built (`''` when no token started). -/
def tokChars : Option (List Char × Bool) → List Char
  | none => []
  | some (cs, _) => cs

/-- Whether the token being built has seen a quote (a quoted empty token is
still emitted in POSIX mode). -/
def tokQuoted : Option (List Char × Bool) → Bool
  | none => false
  | some (_, q) => q

/-- The POSIX `shlex` token loop. -/
def lexRun : LexMode → Option (List Char × Bool) → List Char → Option (List String)
  | .plain, tok, [] =>
    (match tok with
     | none => some []
     | some (chars, quoted) =>
       if quoted || !(chars.isEmpty) then some [⟨chars⟩] else some [])
  | .plain, tok, c :: rest =>
    if shlexWS c then
      match tok with
      | none => lexRun .plain none rest
      | some (chars, quoted) =>
        if quoted || !(chars.isEmpty) then
          (lexRun .plain none rest).map (fun ts => (⟨chars⟩ : String) :: ts)
        else lexRun .plain none rest
    else if c = '\'' then lexRun .single (some (tokChars tok, true)) rest
    else if c = '"' then lexRun .double (some (tokChars tok, true)) rest
    else if c = '\\' then lexRun .escPlain (some (tokChars tok, tokQuoted tok)) rest
    else lexRun .plain (some (tokChars tok ++ [c], tokQuoted tok)) rest
  | .single, _, [] => none
  | .single, tok, c :: rest =>
    if c = '\'' then lexRun .plain tok rest
    else lexRun .single (some (tokChars tok ++ [c], tokQuoted tok)) rest
  | .double, _, [] => none
  | .double, tok, c :: rest =>
    if c = '"' then lexRun .plain tok rest
    else if c = '\\' then lexRun .escDouble tok rest
    else lexRun .double (some (tokChars tok ++ [c], tokQuoted tok)) rest
  | .escPlain, _, [] => none
  | .escPlain, tok, c :: rest => lexRun .plain (some (tokChars tok ++ [c], tokQuoted tok)) rest
  | .escDouble, _, [] => none
  | .escDouble, tok, c :: rest =>
    if c = '"' || c = '\\' then lexRun .double (some (tokChars tok ++ [c], tokQuoted tok)) rest
    else lexRun .double (some (tokChars tok ++ ['\\', c], tokQuoted tok)) rest

/-- `shlex.split(command)`; `none` is a raised `ValueError`. -/
def shlexSplit (command : String) : Option (List String) :=
  lexRun .plain none command.data

/-- The characters `shlex.quote` leaves unquoted. -/
def shlexSafeChar (c : Char) : Bool :=
  ('a' ≤ c && c ≤ 'z') || ('A' ≤ c && c ≤ 'Z') || ('0' ≤ c && c ≤ '9') ||
  c = '_' || c = '@' || c = '%' || c = '+' || c = '=' || c = ':' || c = ',' ||
  c = '.' || c = '/' || c = '-'

/-- `shlex.quote`. -/
def shlexQuote (s : String) : String :=
  if s = "" then "''"
  else if s.data.all shlexSafeChar then s
  else "'" ++ ⟨(s.data.map (fun c => if c = '\'' then "'\"'\"'".data else [c])).join⟩ ++ "'"

/-- The inner token scan of `_has_output_last_message_flag`: walk the tokens
after a `codex exec` pair until a shell separator or `--`, looking for the
output-last-message flag forms. -/
def flagInTail : List String → Bool
  | [] => false
  | t :: ts =>
    if t = "&&" || t = "||" || t = "|" || t = ";" then false
    else if t = "--" then false
    else if t = "-o" || t = "--output-last-message" then true
    else if strStartsWith t "-o=" || strStartsWith t "--output-last-message=" then true
    else flagInTail ts

/-- Whether some adjacent token pair is `codex exec` (`found_exec`). -/
def anyCodexExecPair : List String → Bool
  | [] => false
  | [_] => false
  | a :: b :: rest => (a = "codex" && b = "exec") || anyCodexExecPair (b :: rest)

/-- Whether some `codex exec` window contains the flag before a separator. -/
def anyWindowFlag : List String → Bool
  | [] => false
  | [_] => false
  | a :: b :: rest =>
    (a = "codex" && b = "exec" && flagInTail rest) || anyWindowFlag (b :: rest)

/-- `CodexExecutor._has_output_last_message_flag`. -/
def has_output_last_message_flag (command : String) : Bool :=
  match shlexSplit command with
  | none => strContains command "--output-last-message" || strContains command " -o "
  | some tokens =>
    if anyWindowFlag tokens then true
    else if anyCodexExecPair tokens then false
    else strContains command "--output-last-message" || strContains command " -o "

/-- `CodexExecutor._ensure_skip_git_repo_check`. -/
def ensure_skip_git_repo_check (skipGitRepoCheck autoSafeFlags : Bool) (command : String) :
    String :=
  if !skipGitRepoCheck || !autoSafeFlags then command
  else if strContains command "--skip-git-repo-check" then command
  else if strStartsWith command "codex exec " then
    pyStrip ("codex exec " ++ "--skip-git-repo-check " ++ ⟨command.data.drop 11⟩)
  else if pyStrip command = "codex exec" then "codex exec --skip-git-repo-check"
  else
    match splitFirst "codex exec ".data command.data with
    | none => command
    | some (start, rest) =>
      pyStrip (⟨start⟩ ++ "codex exec " ++ "--skip-git-repo-check " ++ ⟨rest⟩)

/-- `CodexExecutor._inject_output_last_message`. -/
def inject_output_last_message (command : String) (outputPath : Option String) : String :=
  match outputPath with
  | none => command
  | some p =>
    if has_output_last_message_flag command then command
    else
      let quoted := shlexQuote p
      if strStartsWith command "codex exec " then
        pyStrip ("codex exec " ++ "-o " ++ quoted ++ " " ++ ⟨command.data.drop 11⟩)
      else if pyStrip command = "codex exec" then "codex exec -o " ++ quoted
      else
        match splitFirst "codex exec ".data command.data with
        | none => command
        | some (start, rest) =>
          pyStrip (⟨start⟩ ++ "codex exec " ++ "-o " ++ quoted ++ " " ++ ⟨rest⟩)

/-- Occurrence count of a substring pattern (at each position). -/
def countSub (pat : List Char) : List Char → Nat
  | [] => 0
  | c :: rest => (if pat.isPrefixOf (c :: rest) then 1 else 0) + countSub pat rest

example : shlexSplit "codex exec 'prompt text' -o /tmp/x" =
    some ["codex", "exec", "prompt text", "-o", "/tmp/x"] := by decide

example : has_output_last_message_flag "codex exec 'prompt text' -o /tmp/x" = true := by decide

example : inject_output_last_message "'x codex exec y' codex exec z" (some "/tmp/out.txt") =
    "'x codex exec -o /tmp/out.txt y' codex exec z" := by decide

theorem containsSub_iff {pat l : List Char} :
    containsSub pat l = true ↔ ∃ a b, l = a ++ (pat ++ b) := by
  induction l with
  | nil =>
    simp only [containsSub]
    constructor
    · intro h
      have : pat <+: ([] : List Char) := List.isPrefixOf_iff_prefix.1 h
      obtain ⟨t, ht⟩ := this
      exact ⟨[], t, by simpa using ht.symm⟩
    · rintro ⟨a, b, hab⟩
      have hpat : pat = [] := by
        cases a <;> simp at hab
        · exact hab.1
      simp [hpat, List.isPrefixOf]
  | cons c rest ih =>
    simp only [containsSub, Bool.or_eq_true, ih]
    constructor
    · rintro (hp | ⟨a, b, hab⟩)
      · obtain ⟨t, ht⟩ := List.isPrefixOf_iff_prefix.1 hp
        exact ⟨[], t, by simpa using ht.symm⟩
      · exact ⟨c :: a, b, by simp [hab]⟩
    · rintro ⟨a, b, hab⟩
      cases a with
      | nil =>
        left
        exact List.isPrefixOf_iff_prefix.2 ⟨b, by simpa using hab.symm⟩
      | cons a0 a' =>
        right
        simp only [List.cons_append] at hab
        cases hab
        exact ⟨a', b, by simp⟩

theorem containsSub_reverse {pat l : List Char} (h : containsSub pat l = true) :
    containsSub pat.reverse l.reverse = true := by
  obtain ⟨a, b, hab⟩ := containsSub_iff.1 h
  refine containsSub_iff.2 ⟨b.reverse, a.reverse, ?_⟩
  subst hab
  simp

theorem containsSub_dropWhile {pat l : List Char} (hne : pat ≠ [])
    (hnw : ∀ c ∈ pat, isPyWS c = false) (h : containsSub pat l = true) :
    containsSub pat (l.dropWhile isPyWS) = true := by
  induction l with
  | nil =>
    simp only [containsSub] at h
    cases pat with
    | nil => exact absurd rfl hne
    | cons p0 pt => simp [List.isPrefixOf] at h
  | cons c rest ih =>
    by_cases hw : isPyWS c
    · rw [List.dropWhile_cons_of_pos (by simpa using hw)]
      simp only [containsSub, Bool.or_eq_true] at h
      rcases h with hp | hc
      · cases pat with
        | nil => exact absurd rfl hne
        | cons p0 pt =>
          simp only [List.isPrefixOf, Bool.and_eq_true, beq_iff_eq] at hp
          have : isPyWS p0 = false := hnw p0 (List.mem_cons_self _ _)
          rw [hp.1] at this
          rw [this] at hw
          cases hw
      · exact ih hc
    · rw [List.dropWhile_cons_of_neg (by simpa using hw)]
      exact h

theorem containsSub_strip {pat l : List Char} (hne : pat ≠ [])
    (hnw : ∀ c ∈ pat, isPyWS c = false) (h : containsSub pat l = true) :
    containsSub pat (pyStripL l) = true := by
  have hne' : pat.reverse ≠ [] := by simpa using hne
  have hnw' : ∀ c ∈ pat.reverse, isPyWS c = false := by
    intro c hc
    exact hnw c (List.mem_reverse.1 hc)
  have h1 := containsSub_dropWhile hne hnw h
  have h2 := containsSub_reverse h1
  have h3 := containsSub_dropWhile hne' hnw' h2
  have h4 := containsSub_reverse h3
  simpa [pyStripL] using h4

theorem containsSub_of_isPrefixOf {pat l : List Char} (h : pat.isPrefixOf l = true) :
    containsSub pat l = true := by
  cases l with
  | nil => simpa [containsSub] using h
  | cons c rest => simp [containsSub, h]

theorem containsSub_of_decomp {pat a b : List Char} :
    containsSub pat (a ++ (pat ++ b)) = true :=
  containsSub_iff.2 ⟨a, b, rfl⟩

/-- After any injection branch of `_ensure_skip_git_repo_check`, the command
contains the flag text (or the command was returned unchanged). -/
theorem ensure_skip_contains_or_id (b1 b2 : Bool) (c : String) :
    ensure_skip_git_repo_check b1 b2 c = c ∨
      strContains (ensure_skip_git_repo_check b1 b2 c) "--skip-git-repo-check" = true := by
  have hne : ("--skip-git-repo-check".data : List Char) ≠ [] := by decide
  have hnw : ∀ ch ∈ "--skip-git-repo-check".data, isPyWS ch = false := by decide
  by_cases hoff : (!b1 || !b2) = true
  · left
    simp [ensure_skip_git_repo_check, hoff]
  · by_cases hc : strContains c "--skip-git-repo-check" = true
    · left
      simp [ensure_skip_git_repo_check, hoff, hc]
    · by_cases hsw : strStartsWith c "codex exec " = true
      · right
        simp only [ensure_skip_git_repo_check, hoff, hc, hsw, Bool.false_eq_true, if_false,
          if_true]
        refine containsSub_strip hne hnw ?_
        show containsSub "--skip-git-repo-check".data
          (("codex exec " ++ "--skip-git-repo-check " ++ ⟨c.data.drop 11⟩) : String).data = true
        rw [show (("codex exec " ++ "--skip-git-repo-check " ++ ⟨c.data.drop 11⟩) : String).data =
          "codex exec ".data ++ ("--skip-git-repo-check".data ++ (' ' :: c.data.drop 11)) from by
            simp [String.data_append]]
        exact containsSub_of_decomp
      · by_cases hstrip : pyStrip c = "codex exec"
        · right
          simp only [ensure_skip_git_repo_check, hoff, hc, hsw, hstrip, Bool.false_eq_true,
            if_false, if_true]
          decide
        · cases hsp : splitFirst "codex exec ".data c.data with
          | none =>
            left
            simp [ensure_skip_git_repo_check, hoff, hc, hsw, hstrip, hsp]
          | some pr =>
            right
            simp only [ensure_skip_git_repo_check, hoff, hc, hsw, hstrip, hsp,
              Bool.false_eq_true, if_false, if_true]
            refine containsSub_strip hne hnw ?_
            show containsSub "--skip-git-repo-check".data
              ((⟨pr.1⟩ ++ "codex exec " ++ "--skip-git-repo-check " ++ ⟨pr.2⟩) : String).data = true
            rw [show ((⟨pr.1⟩ ++ "codex exec " ++ "--skip-git-repo-check " ++ ⟨pr.2⟩) : String).data =
              (pr.1 ++ "codex exec ".data) ++ ("--skip-git-repo-check".data ++ (' ' :: pr.2)) from by
                simp [String.data_append]]
            exact containsSub_of_decomp

/-- C8 counterexample: a template whose first `codex exec ` occurrence lies
inside a quoted region is injected, the detector then fails to see the
injected `-o` (it sits inside one big quoted token while another bare
`codex exec` pair exists), and a second plan construction injects a second
copy — flag injection is not unconditionally idempotent. -/
theorem inject_output_counterexample :
    inject_output_last_message "'x codex exec y' codex exec z" (some "/tmp/out.txt") =
      "'x codex exec -o /tmp/out.txt y' codex exec z" ∧
    inject_output_last_message "'x codex exec -o /tmp/out.txt y' codex exec z"
        (some "/tmp/out.txt") =
      "'x codex exec -o /tmp/out.txt -o /tmp/out.txt y' codex exec z" ∧
    countSub " -o ".data
      "'x codex exec -o /tmp/out.txt -o /tmp/out.txt y' codex exec z".data = 2 := by
  refine ⟨by decide, by decide, by decide⟩

/-- C8 (amended): a template that already contains the skip-git-repo-check
flag text is returned unchanged by `_ensure_skip_git_repo_check`, and that
injection is unconditionally idempotent; a template in which the detector
`_has_output_last_message_flag` recognises an output-last-message flag
(`-o` / `--output-last-message`, also after positional arguments, thanks to
the tokenised scan) is returned unchanged by `_inject_output_last_message`
— so re-running injection leaves the flags single whenever the detector
recognises the first injection, but not for templates whose first
`codex exec ` occurrence lies inside quotes (see the counterexample). -/
theorem flag_injection_spec :
    (∀ (b1 b2 : Bool) (c : String), strContains c "--skip-git-repo-check" = true →
      ensure_skip_git_repo_check b1 b2 c = c) ∧
    (∀ (b1 b2 : Bool) (c : String),
      ensure_skip_git_repo_check b1 b2 (ensure_skip_git_repo_check b1 b2 c) =
        ensure_skip_git_repo_check b1 b2 c) ∧
    (∀ (c p : String), has_output_last_message_flag c = true →
      inject_output_last_message c (some p) = c) := by
  have hfix : ∀ (b1 b2 : Bool) (r : String),
      strContains r "--skip-git-repo-check" = true →
      ensure_skip_git_repo_check b1 b2 r = r := by
    intro b1 b2 r hr
    by_cases hoff : (!b1 || !b2) = true
    · simp [ensure_skip_git_repo_check, hoff]
    · simp [ensure_skip_git_repo_check, hoff, hr]
  refine ⟨fun b1 b2 c h => hfix b1 b2 c h, ?_, ?_⟩
  · intro b1 b2 c
    rcases ensure_skip_contains_or_id b1 b2 c with h | h
    · rw [h]
      exact h
    · exact hfix b1 b2 _ h
  · intro c p h
    simp [inject_output_last_message, h]

/-- Witness for `flag_injection_spec`: a template already carrying the skip
flag, a template carrying `-o` after a positional argument, and a plain
template for the idempotence part. -/
theorem flag_injection_spec_witness :
    (strContains "codex exec --skip-git-repo-check 'do it'" "--skip-git-repo-check" = true ∧
      has_output_last_message_flag "codex exec 'prompt text' -o /tmp/x" = true) ∧
    ensure_skip_git_repo_check true true "codex exec --skip-git-repo-check 'do it'" =
      "codex exec --skip-git-repo-check 'do it'" ∧
    inject_output_last_message "codex exec 'prompt text' -o /tmp/x"
        (some "/runs/1/assistant_last_message.txt") =
      "codex exec 'prompt text' -o /tmp/x" ∧
    ensure_skip_git_repo_check true true (ensure_skip_git_repo_check true true "codex exec 'hello'") =
      ensure_skip_git_repo_check true true "codex exec 'hello'" :=
  ⟨⟨by decide, by decide⟩,
   flag_injection_spec.1 true true "codex exec --skip-git-repo-check 'do it'" (by decide),
   flag_injection_spec.2.2 "codex exec 'prompt text' -o /tmp/x"
     "/runs/1/assistant_last_message.txt" (by decide),
   flag_injection_spec.2.1 true true "codex exec 'hello'"⟩

end CodexTelegram
